import Mathlib

/-!
Verification development for the qwickbrain-proxy offline-resilience engine.

The definitions below are a shallow embedding of the TypeScript sources:

* `CacheManager` (two-tier LRU cache, `src/lib/cache-manager.ts`):
  `getDocument`, `setDocument`, `getMemory`, `setMemory`,
  `invalidateDocument`, `invalidateMemory`, `getDynamicCacheSize`,
  `evictLRU`, `ensureCacheSize`, `getCacheStats`.
* `WriteQueueManager` (`src/lib/write-queue-manager.ts`):
  `queueOperation`, `syncPendingOperations`, `retryOperation`.
* `ConnectionManager` (`src/lib/connection-manager.ts`):
  `setState`, `scheduleReconnect`, the probe-failure path of `healthCheck`.
* `ProxyServer.setupHandlers` (`src/lib/proxy-server.ts`) together with the
  static tool catalog and `requiresConnection` (`src/lib/tools.ts`).

Timestamps are modelled as natural numbers (JavaScript epoch milliseconds
under a monotone clock); each operation that reads the clock takes the
current time as an explicit `now` argument.  Database tables are lists of
rows in rowid (insertion) order; SQL `ORDER BY` on a column is modelled by
a stable insertion sort on that column, matching SQLite's behaviour of
scanning rows in rowid order.  `JSON.stringify`/`JSON.parse` of the opaque
metadata map are modelled as the identity on an optional serialized string.
The connection-state side effects of `ConnectionManager.execute` are
modelled in the connection-manager section; the dispatcher embedding takes
the supervisor state as a read-only input, which is faithful for the
branches studied here (none of them transitions the supervisor).
-/

/-! ## Stable sorting on a boolean total preorder (model of SQL ORDER BY) -/

/-- Insert `a` into `l` in front of the first element `b` with `le a b`.
Used to model `ORDER BY` (ascending): stable for equal keys. -/
def insertLe {α : Type} (le : α → α → Bool) (a : α) : List α → List α
  | [] => [a]
  | b :: bs => if le a b then a :: b :: bs else b :: insertLe le a bs

/-- Stable insertion sort by the boolean relation `le`. -/
def sortLe {α : Type} (le : α → α → Bool) : List α → List α
  | [] => []
  | a :: as => insertLe le a (sortLe le as)

/-! ## Cache model (`CacheManager`, LRU two-tier version) -/

/-- `CRITICAL_DOC_TYPES` from cache-manager.ts: never evicted, not counted
toward the storage limit. -/
def CRITICAL_DOC_TYPES : List String := ["workflow", "rule", "agent", "template"]

/-- A row of the `documents` table (db/schema.ts). -/
structure DocRow where
  id : Nat
  docType : String
  name : String
  project : String
  content : String
  metadata : Option String
  cachedAt : Nat
  lastAccessedAt : Nat
  isCritical : Bool
  sizeBytes : Nat
  deriving DecidableEq, Repr

/-- A row of the `memories` table (db/schema.ts); memories are always
dynamic tier, no `isCritical` column. -/
structure MemRow where
  id : Nat
  name : String
  project : String
  content : String
  metadata : Option String
  cachedAt : Nat
  lastAccessedAt : Nat
  sizeBytes : Nat
  deriving DecidableEq, Repr

/-- The cache database: both tables in rowid order plus the autoincrement
counters. -/
structure CacheState where
  docs : List DocRow
  mems : List MemRow
  nextDocId : Nat
  nextMemId : Nat
  deriving DecidableEq, Repr

def CacheState.empty : CacheState := ⟨[], [], 1, 1⟩

/-- `ORDER BY last_accessed_at` ascending (ties resolved by rowid, the
order in which SQLite delivers equal keys). -/
def docLruLe (a b : DocRow) : Bool :=
  a.lastAccessedAt < b.lastAccessedAt ||
    (a.lastAccessedAt = b.lastAccessedAt && a.id ≤ b.id)

def memLruLe (a b : MemRow) : Bool :=
  a.lastAccessedAt < b.lastAccessedAt ||
    (a.lastAccessedAt = b.lastAccessedAt && a.id ≤ b.id)

def sumDocBytes (l : List DocRow) : Nat := (l.map DocRow.sizeBytes).sum

def sumMemBytes (l : List MemRow) : Nat := (l.map MemRow.sizeBytes).sum

/-- `getDynamicCacheSize`: sum of sizeBytes over non-critical documents
plus the sum over all memories. -/
def getDynamicCacheSize (s : CacheState) : Nat :=
  sumDocBytes (s.docs.filter (fun d => !d.isCritical)) + sumMemBytes s.mems

/-- The eviction loop body shared by both tables: walk the candidates in
order, deleting each and accumulating freed bytes, breaking as soon as
`freed >= bytesToFree` (checked before each deletion, as in the source).
Returns the deleted rows and the final freed count. -/
def evictLoop {α : Type} (size : α → Nat) (bytesToFree : Nat) :
    List α → Nat → List α × Nat
  | [], freed => ([], freed)
  | r :: rest, freed =>
    if bytesToFree ≤ freed then ([], freed)
    else
      let (es, f) := evictLoop size bytesToFree rest (freed + size r)
      (r :: es, f)

/-- `SELECT * FROM documents WHERE is_critical = 0 ORDER BY last_accessed_at LIMIT 100`. -/
def docCandidates (s : CacheState) : List DocRow :=
  (sortLe docLruLe (s.docs.filter (fun d => !d.isCritical))).take 100

/-- `SELECT * FROM memories ORDER BY last_accessed_at LIMIT 100`. -/
def memCandidates (s : CacheState) : List MemRow :=
  (sortLe memLruLe s.mems).take 100

/-- `evictLRU(bytesToFree)`: evict dynamic-tier documents first, then
memories if still short.  Deletion is by primary key.  Returns the new
state together with the evicted rows of each table. -/
def evictLRU (s : CacheState) (bytesToFree : Nat) :
    CacheState × List DocRow × List MemRow :=
  let (evDocs, freed) := evictLoop DocRow.sizeBytes bytesToFree (docCandidates s) 0
  let docIds := evDocs.map DocRow.id
  let docs' := s.docs.filter (fun d => !(docIds.contains d.id))
  let (evMems, _) :=
    if freed < bytesToFree then
      evictLoop MemRow.sizeBytes bytesToFree (memCandidates s) freed
    else ([], freed)
  let memIds := evMems.map MemRow.id
  let mems' := s.mems.filter (fun m => !(memIds.contains m.id))
  ({ s with docs := docs', mems := mems' }, evDocs, evMems)

/-- `ensureCacheSize(requiredBytes, isCritical)`: critical rows bypass the
check; otherwise evict when the dynamic tier would exceed the limit.
`maxBytes` is `maxDynamicCacheSize` from the configuration. -/
def ensureCacheSize (maxBytes : Nat) (s : CacheState) (requiredBytes : Nat)
    (isCritical : Bool) : CacheState × List DocRow × List MemRow :=
  if isCritical then (s, [], [])
  else
    let currentSize := getDynamicCacheSize s
    if currentSize + requiredBytes ≤ maxBytes then (s, [], [])
    else evictLRU s (currentSize + requiredBytes - maxBytes)

/-- `project || ''` : an omitted project becomes the empty string (and the
empty string stays the empty string). -/
def normProject (project : Option String) : String := project.getD ""

/-- Key lookup used by the unique constraint `(doc_type, name, project)`. -/
def findDoc (docs : List DocRow) (docType name projectValue : String) :
    Option DocRow :=
  docs.find? (fun d =>
    d.docType = docType && d.name = name && d.project = projectValue)

/-- Key lookup for `(name, project)` on memories. -/
def findMem (mems : List MemRow) (name projectValue : String) : Option MemRow :=
  mems.find? (fun m => m.name = name && m.project = projectValue)

/-- `setDocument`: compute size and criticality, ensure capacity, then
insert-or-update on the composite key.  The `onConflictDoUpdate` branch
overwrites `content`, `metadata`, `lastAccessedAt` and `sizeBytes` only
(it does not touch `cachedAt` or `isCritical`).  Returns the state and the
rows evicted while making room. -/
def setDocumentFull (maxBytes : Nat) (s : CacheState) (now : Nat)
    (docType name content : String) (project : Option String)
    (metadata : Option String) : CacheState × List DocRow × List MemRow :=
  let projectValue := normProject project
  let isCritical := CRITICAL_DOC_TYPES.contains docType
  let sizeBytes := content.utf8ByteSize
  let (s1, evD, evM) := ensureCacheSize maxBytes s sizeBytes isCritical
  match findDoc s1.docs docType name projectValue with
  | some row =>
    let docs' := s1.docs.map (fun d =>
      if d.id = row.id then
        { d with content := content, metadata := metadata,
                 lastAccessedAt := now, sizeBytes := sizeBytes }
      else d)
    ({ s1 with docs := docs' }, evD, evM)
  | none =>
    let newRow : DocRow :=
      { id := s1.nextDocId, docType := docType, name := name,
        project := projectValue, content := content, metadata := metadata,
        cachedAt := now, lastAccessedAt := now, isCritical := isCritical,
        sizeBytes := sizeBytes }
    ({ s1 with docs := s1.docs ++ [newRow], nextDocId := s1.nextDocId + 1 },
     evD, evM)

def setDocument (maxBytes : Nat) (s : CacheState) (now : Nat)
    (docType name content : String) (project : Option String)
    (metadata : Option String) : CacheState :=
  (setDocumentFull maxBytes s now docType name content project metadata).1

/-- `setMemory`: always dynamic tier (`ensureCacheSize(size, false)`). -/
def setMemoryFull (maxBytes : Nat) (s : CacheState) (now : Nat)
    (name content : String) (project : Option String)
    (metadata : Option String) : CacheState × List DocRow × List MemRow :=
  let projectValue := normProject project
  let sizeBytes := content.utf8ByteSize
  let (s1, evD, evM) := ensureCacheSize maxBytes s sizeBytes false
  match findMem s1.mems name projectValue with
  | some row =>
    let mems' := s1.mems.map (fun m =>
      if m.id = row.id then
        { m with content := content, metadata := metadata,
                 lastAccessedAt := now, sizeBytes := sizeBytes }
      else m)
    ({ s1 with mems := mems' }, evD, evM)
  | none =>
    let newRow : MemRow :=
      { id := s1.nextMemId, name := name, project := projectValue,
        content := content, metadata := metadata, cachedAt := now,
        lastAccessedAt := now, sizeBytes := sizeBytes }
    ({ s1 with mems := s1.mems ++ [newRow], nextMemId := s1.nextMemId + 1 },
     evD, evM)

def setMemory (maxBytes : Nat) (s : CacheState) (now : Nat)
    (name content : String) (project : Option String)
    (metadata : Option String) : CacheState :=
  (setMemoryFull maxBytes s now name content project metadata).1

/-- `JSON.parse(cached.metadata)` when present, `{}` otherwise. -/
def emptyJsonObject : String := "\x7b\x7d"

/-- The `data` object returned by `getDocument` / `getMemory`. -/
structure CachedData where
  name : String
  docType : Option String
  project : String
  content : String
  metadata : String
  deriving DecidableEq, Repr

/-- `CachedItem` as returned to the dispatcher. -/
structure CachedItem where
  data : CachedData
  cachedAt : Nat
  age : Nat
  deriving DecidableEq, Repr

/-- `getDocument`: look up by composite key; on hit, set
`lastAccessedAt = now` and return the row plus
`age = floor((now - cachedAt) / 1000)` seconds. -/
def getDocument (s : CacheState) (now : Nat) (docType name : String)
    (project : Option String) : Option CachedItem × CacheState :=
  let projectValue := normProject project
  match findDoc s.docs docType name projectValue with
  | none => (none, s)
  | some cached =>
    let docs' := s.docs.map (fun d =>
      if d.id = cached.id then { d with lastAccessedAt := now } else d)
    let age := (now - cached.cachedAt) / 1000
    (some { data := { name := cached.name, docType := some cached.docType,
                      project := cached.project, content := cached.content,
                      metadata := cached.metadata.getD emptyJsonObject },
            cachedAt := cached.cachedAt, age := age },
     { s with docs := docs' })

/-- `getMemory`, symmetric to `getDocument`. -/
def getMemory (s : CacheState) (now : Nat) (name : String)
    (project : Option String) : Option CachedItem × CacheState :=
  let projectValue := normProject project
  match findMem s.mems name projectValue with
  | none => (none, s)
  | some cached =>
    let mems' := s.mems.map (fun m =>
      if m.id = cached.id then { m with lastAccessedAt := now } else m)
    let age := (now - cached.cachedAt) / 1000
    (some { data := { name := cached.name, docType := none,
                      project := cached.project, content := cached.content,
                      metadata := cached.metadata.getD emptyJsonObject },
            cachedAt := cached.cachedAt, age := age },
     { s with mems := mems' })

/-- `invalidateDocument`: hard delete by composite key (idempotent). -/
def invalidateDocument (s : CacheState) (docType name : String)
    (project : Option String) : CacheState :=
  let projectValue := normProject project
  { s with docs := s.docs.filter (fun d =>
      !(d.docType = docType && d.name = name && d.project = projectValue)) }

/-- `invalidateMemory`: hard delete by composite key (idempotent). -/
def invalidateMemory (s : CacheState) (name : String)
    (project : Option String) : CacheState :=
  let projectValue := normProject project
  { s with mems := s.mems.filter (fun m =>
      !(m.name = name && m.project = projectValue)) }

/-- `getCacheStats` (the fields used by the claims). -/
structure CacheStats where
  criticalSize : Nat
  criticalCount : Nat
  dynamicSize : Nat
  dynamicCount : Nat
  totalSize : Nat
  totalCount : Nat
  deriving DecidableEq, Repr

def getCacheStats (s : CacheState) : CacheStats :=
  let criticalDocs := s.docs.filter (fun d => d.isCritical)
  let dynamicDocs := s.docs.filter (fun d => !d.isCritical)
  let criticalSize := sumDocBytes criticalDocs
  let dynamicSize := sumDocBytes dynamicDocs
  let memorySize := sumMemBytes s.mems
  { criticalSize := criticalSize
    criticalCount := criticalDocs.length
    dynamicSize := dynamicSize + memorySize
    dynamicCount := dynamicDocs.length + s.mems.length
    totalSize := criticalSize + dynamicSize + memorySize
    totalCount := criticalDocs.length + dynamicDocs.length + s.mems.length }

/-! ## Write-queue model (`WriteQueueManager`) -/

/-- `maxAttempts = 3` (private field of `WriteQueueManager`). -/
def maxAttempts : Nat := 3

inductive QStatus where
  | pending
  | completed
  | failed
  deriving DecidableEq, Repr

/-- The serialized operation payloads (`JSON.stringify`/`JSON.parse` are
modelled as the identity on this structured value). -/
inductive QueuePayload where
  | doc (docType name content : String) (project : Option String)
      (metadata : Option String)
  | mem (name content : String) (project : Option String)
      (metadata : Option String)
  | delDoc (docType name : String) (project : Option String)
  | delMem (name : String) (project : Option String)
  deriving DecidableEq, Repr

/-- A row of the `sync_queue` table. -/
structure QueueRow where
  id : Nat
  operation : String
  payload : QueuePayload
  createdAt : Nat
  status : QStatus
  attempts : Nat
  lastAttemptAt : Option Nat
  error : Option String
  deriving DecidableEq, Repr

structure QueueState where
  rows : List QueueRow
  nextId : Nat
  isSyncing : Bool
  deriving DecidableEq, Repr

def QueueState.empty : QueueState := ⟨[], 1, false⟩

/-- `queueOperation(operation, payload)`: append a pending row with
`attempts = 0`; `createdAt` takes the current clock (`unixepoch()`
default of the schema, modelled in milliseconds like the other clocks). -/
def queueOperation (s : QueueState) (now : Nat) (operation : String)
    (payload : QueuePayload) : QueueState :=
  { s with
    rows := s.rows ++
      [{ id := s.nextId, operation := operation, payload := payload,
         createdAt := now, status := .pending, attempts := 0,
         lastAttemptAt := none, error := none }]
    nextId := s.nextId + 1 }

def getPendingCount (s : QueueState) : Nat :=
  (s.rows.filter (fun r => r.status = QStatus.pending)).length

/-- `ORDER BY created_at` for the replay selection. -/
def queueLe (a b : QueueRow) : Bool := a.createdAt ≤ b.createdAt

/-- The per-item body of the replay loop: on success mark completed; on
failure (`executeOperation` threw with the given message) bump `attempts`,
record `lastAttemptAt`/`error`, and flip to `failed` exactly when
`attempts + 1 >= maxAttempts`. -/
def applyOutcome (now : Nat) (outcome : Except String Unit) (r : QueueRow) :
    QueueRow :=
  match outcome with
  | .ok _ => { r with status := .completed }
  | .error errMsg =>
    let newAttempts := r.attempts + 1
    if maxAttempts ≤ newAttempts then
      { r with status := .failed, error := some errMsg,
               attempts := newAttempts, lastAttemptAt := some now }
    else
      { r with attempts := newAttempts, lastAttemptAt := some now,
               error := some errMsg }

/-- `UPDATE sync_queue ... WHERE id = ?`. -/
def updateRow (rows : List QueueRow) (id : Nat) (f : QueueRow → QueueRow) :
    List QueueRow :=
  rows.map (fun r => if r.id = id then f r else r)

/-- The sequential body of `syncPendingOperations`: one database update per
selected item, in selection order; a failure on one item does not stop the
loop.  `ok` is the oracle for whether `executeOperation` (the upstream
call) succeeds for a given item. -/
def replayLoop (exec : QueueRow → Except String Unit) (now : Nat) :
    List QueueRow → List QueueRow → List QueueRow
  | rows, [] => rows
  | rows, item :: rest =>
    replayLoop exec now
      (updateRow rows item.id (applyOutcome now (exec item)))
      rest

structure SyncResult where
  state : QueueState
  /-- the queue rows handed to `executeOperation`, in invocation order -/
  trace : List QueueRow
  deriving Repr

/-- `syncPendingOperations`: skip if a sync is already in progress;
otherwise select all pending rows ordered by `createdAt`, attempt each
sequentially, then delete the completed rows (`cleanupCompleted`). -/
def syncPendingOperations (s : QueueState)
    (exec : QueueRow → Except String Unit) (now : Nat) : SyncResult :=
  if s.isSyncing then { state := s, trace := [] }
  else
    let pending := sortLe queueLe
      (s.rows.filter (fun r => r.status = QStatus.pending))
    let rows1 := replayLoop exec now s.rows pending
    let rows2 := rows1.filter (fun r => !(r.status = QStatus.completed))
    { state := { s with rows := rows2, isSyncing := false }, trace := pending }

/-- `retryOperation(id)`: reset to pending with `attempts = 0`. -/
def retryOperation (s : QueueState) (id : Nat) : QueueState :=
  { s with rows := updateRow s.rows id (fun r =>
      { r with status := .pending, attempts := 0, error := none,
               lastAttemptAt := none }) }

/-- Queue states reachable through enqueue, replay and retry from the
fresh database. -/
inductive QReach : QueueState → Prop where
  | init : QReach QueueState.empty
  | enqueue {s : QueueState} (now : Nat) (operation : String)
      (payload : QueuePayload) :
      QReach s → QReach (queueOperation s now operation payload)
  | sync {s : QueueState} (exec : QueueRow → Except String Unit) (now : Nat) :
      QReach s → QReach (syncPendingOperations s exec now).state
  | retry {s : QueueState} (id : Nat) :
      QReach s → QReach (retryOperation s id)

/-! ## Connection-state machine (`ConnectionManager`) -/

inductive ConnState where
  | disconnected
  | connected
  | reconnecting
  | offline
  deriving DecidableEq, Repr

inductive CMEvent where
  | stateChange (from_ to_ : ConnState)
  | connectedEv
  | disconnectedEv
  | reconnectingEv (attempt : Nat)
  | maxReconnectAttemptsReached
  deriving DecidableEq, Repr

structure CMState where
  state : ConnState
  reconnectAttempts : Nat
  /-- whether `reconnectTimer` is non-null -/
  reconnectTimer : Bool
  /-- emitted events, oldest first -/
  events : List CMEvent
  deriving DecidableEq, Repr

def CMState.emit (s : CMState) (e : CMEvent) : CMState :=
  { s with events := s.events ++ [e] }

/-- `setState`: record a `stateChange` event only on an actual change. -/
def cmSetState (s : CMState) (st : ConnState) : CMState :=
  let s' := { s with state := st }
  if s.state ≠ st then s'.emit (.stateChange s.state st) else s'

/-- `scheduleReconnect()`: no-op while a reconnect timer is armed; go
offline and emit `maxReconnectAttemptsReached` once `reconnectAttempts`
reaches the limit; otherwise bump the counter, enter `reconnecting` and
arm the timer. -/
def scheduleReconnect (maxReconnectAttempts : Nat) (s : CMState) : CMState :=
  if s.reconnectTimer then s
  else if maxReconnectAttempts ≤ s.reconnectAttempts then
    (cmSetState s .offline).emit .maxReconnectAttemptsReached
  else
    let s1 := cmSetState s .reconnecting
    let s2 := { s1 with reconnectAttempts := s1.reconnectAttempts + 1,
                        reconnectTimer := true }
    s2.emit (.reconnectingEv s2.reconnectAttempts)

/-- The catch-branch of `healthCheck()` on a failed probe. -/
def probeFailure (maxReconnectAttempts : Nat) (s : CMState) : CMState :=
  scheduleReconnect maxReconnectAttempts
    ((cmSetState s .disconnected).emit .disconnectedEv)

/-- The success branch of `healthCheck()`. -/
def probeSuccess (s : CMState) : CMState :=
  let s1 := cmSetState s .connected
  ({ s1 with reconnectAttempts := 0, reconnectTimer := false }).emit
    .connectedEv

/-- The reconnect timer fires: it nulls itself before running the probe. -/
def reconnectTimerFires (s : CMState) : CMState :=
  { s with reconnectTimer := false }

def cmStart : CMState :=
  { state := .connected, reconnectAttempts := 0, reconnectTimer := false,
    events := [] }

/-- A run of `n` consecutive probe failures starting from a connected
supervisor: the first failure comes from the periodic health check, each
subsequent one from the reconnect timer firing and its probe failing
(`reconnectTimerFires` is the identity before the first failure, where no
reconnect timer is armed). -/
def failuresAfter (maxReconnectAttempts : Nat) : Nat → CMState
  | 0 => cmStart
  | n + 1 =>
    probeFailure maxReconnectAttempts
      (reconnectTimerFires (failuresAfter maxReconnectAttempts n))

/-- Number of `maxReconnectAttemptsReached` emissions so far. -/
def maxReachedCount (s : CMState) : Nat :=
  (s.events.filter (fun e => e = CMEvent.maxReconnectAttemptsReached)).length

/-! ## Dispatcher model (`ProxyServer.setupHandlers` and `tools.ts`) -/

/-- Names of the static tool catalog `QWICKBRAIN_TOOLS`, in order. -/
def qwickbrainToolNames : List String :=
  ["analyze_repository", "analyze_file", "find_functions", "find_classes",
   "get_imports", "search_codebase", "ask_qwickai", "explain_function",
   "add_repository", "list_repositories", "remove_repository",
   "update_repository", "create_document", "get_document", "list_documents",
   "update_document", "delete_document", "search_documents", "get_workflow",
   "list_workflows", "create_workflow", "update_workflow", "get_memory",
   "set_memory", "list_memories", "search_memories"]

/-- `CACHEABLE_TOOLS` from tools.ts. -/
def CACHEABLE_TOOLS : List String := ["get_workflow", "get_document", "get_memory"]

/-- `requiresConnection(toolName)`. -/
def requiresConnection (toolName : String) : Bool :=
  !(CACHEABLE_TOOLS.contains toolName)

/-- The argument object of a tool call (the fields read by the handlers). -/
structure ToolArgs where
  name : String
  docType : String
  content : String
  project : Option String
  metadata : Option String
  deriving DecidableEq, Repr

structure EnvError where
  code : String
  message : String
  suggestions : List String
  deriving DecidableEq, Repr

inductive EnvData where
  /-- a cache hit: the stored row's data object -/
  | cached (d : CachedData)
  /-- a live upstream fetch result -/
  | fetched (content : String) (metadata : Option String)
  /-- a write acknowledgement -/
  | success (queued : Bool)
  /-- a forwarded pass-through result -/
  | raw (text : String)
  deriving DecidableEq, Repr

structure EnvMetadata where
  source : String
  ageSeconds : Option Nat
  status : ConnState
  warning : Option String
  deriving DecidableEq, Repr

/-- The uniform response envelope. -/
structure Envelope where
  data : Option EnvData
  error : Option EnvError
  metadata : EnvMetadata
  deriving DecidableEq, Repr

/-- `createMetadata(source, age?)` with `status` from the supervisor. -/
def createMetadata (conn : ConnState) (source : String) (age : Option Nat) :
    EnvMetadata :=
  { source := source, ageSeconds := age, status := conn, warning := none }

structure FetchResult where
  content : String
  metadata : Option String
  deriving DecidableEq, Repr

/-- Record of an upstream (`QwickBrainClient`) invocation. -/
inductive UpstreamCall where
  | getDoc (docType name : String) (project : Option String)
  | getMem (name : String) (project : Option String)
  | createDoc (docType name content : String) (project metadata : Option String)
  | setMem (name content : String) (project metadata : Option String)
  | tool (name : String) (args : ToolArgs)
  deriving DecidableEq, Repr

/-- Oracle for the upstream client: what each call would return. -/
structure Upstream where
  getDocument : String → String → Option String → Except String FetchResult
  getMemory : String → Option String → Except String FetchResult
  createDocument : String → String → String → Option String → Option String →
    Except String Unit
  setMemory : String → String → Option String → Option String →
    Except String Unit
  callTool : String → ToolArgs → Except String String

/-- Result of dispatching one tool call. -/
structure DispatchResult where
  envelope : Envelope
  cache : CacheState
  queue : QueueState
  calls : List UpstreamCall
  deriving DecidableEq, Repr

/-- `handleGetDocument`: cache first; on miss and connected fetch and
cache; otherwise the UNAVAILABLE envelope. -/
def handleGetDocument (maxBytes : Nat) (conn : ConnState) (cache : CacheState)
    (queue : QueueState) (now : Nat) (up : Upstream)
    (docType name : String) (project : Option String) : DispatchResult :=
  let (cachedOpt, cache1) := getDocument cache now docType name project
  match cachedOpt with
  | some c =>
    { envelope := { data := some (.cached c.data), error := none,
                    metadata := createMetadata conn "cache" (some c.age) }
      cache := cache1, queue := queue, calls := [] }
  | none =>
    let unavailable : Envelope :=
      { data := none
        error := some
          { code := "UNAVAILABLE"
            message := "QwickBrain unavailable and no cached data for " ++
              docType ++ ":" ++ name
            suggestions := ["Check internet connection",
                "Wait for automatic reconnection"] ++
              (if docType = "workflow" then ["Try /plan command as fallback"]
               else []) }
        metadata := createMetadata conn "cache" none }
    if conn = ConnState.connected then
      match up.getDocument docType name project with
      | .ok r =>
        let cache2 := setDocument maxBytes cache1 now docType name r.content
          project r.metadata
        { envelope := { data := some (.fetched r.content r.metadata),
                        error := none,
                        metadata := createMetadata conn "live" none }
          cache := cache2, queue := queue,
          calls := [.getDoc docType name project] }
      | .error _ =>
        { envelope := unavailable, cache := cache1, queue := queue,
          calls := [.getDoc docType name project] }
    else
      { envelope := unavailable, cache := cache1, queue := queue, calls := [] }

/-- `handleGetMemory`, symmetric. -/
def handleGetMemory (maxBytes : Nat) (conn : ConnState) (cache : CacheState)
    (queue : QueueState) (now : Nat) (up : Upstream)
    (name : String) (project : Option String) : DispatchResult :=
  let (cachedOpt, cache1) := getMemory cache now name project
  match cachedOpt with
  | some c =>
    { envelope := { data := some (.cached c.data), error := none,
                    metadata := createMetadata conn "cache" (some c.age) }
      cache := cache1, queue := queue, calls := [] }
  | none =>
    let unavailable : Envelope :=
      { data := none
        error := some
          { code := "UNAVAILABLE"
            message := "QwickBrain unavailable and no cached memory: " ++ name
            suggestions := ["Check connection", "Wait for reconnection"] }
        metadata := createMetadata conn "cache" none }
    if conn = ConnState.connected then
      match up.getMemory name project with
      | .ok r =>
        let cache2 := setMemory maxBytes cache1 now name r.content project
          r.metadata
        { envelope := { data := some (.fetched r.content r.metadata),
                        error := none,
                        metadata := createMetadata conn "live" none }
          cache := cache2, queue := queue, calls := [.getMem name project] }
      | .error _ =>
        { envelope := unavailable, cache := cache1, queue := queue,
          calls := [.getMem name project] }
    else
      { envelope := unavailable, cache := cache1, queue := queue, calls := [] }

def queuedWarning : String :=
  "Operation queued - will sync when connection restored"

/-- `handleCreateDocument` (serves both `create_document` and
`update_document`): update the local cache first, sync immediately when
connected, otherwise (or on upstream failure) enqueue `create_document`. -/
def handleCreateDocument (maxBytes : Nat) (conn : ConnState)
    (cache : CacheState) (queue : QueueState) (now : Nat) (up : Upstream)
    (docType name content : String) (project metadata : Option String) :
    DispatchResult :=
  let cache1 := setDocument maxBytes cache now docType name content project
    metadata
  let queuedResult (calls : List UpstreamCall) : DispatchResult :=
    { envelope := { data := some (.success true), error := none,
                    metadata := { createMetadata conn "cache" none with
                                  warning := some queuedWarning } }
      cache := cache1
      queue := queueOperation queue now "create_document"
        (.doc docType name content project metadata)
      calls := calls }
  if conn = ConnState.connected then
    match up.createDocument docType name content project metadata with
    | .ok _ =>
      { envelope := { data := some (.success false), error := none,
                      metadata := createMetadata conn "live" none }
        cache := cache1, queue := queue,
        calls := [.createDoc docType name content project metadata] }
    | .error _ =>
      queuedResult [.createDoc docType name content project metadata]
  else queuedResult []

/-- `handleSetMemory` (serves both `set_memory` and `update_memory`). -/
def handleSetMemory (maxBytes : Nat) (conn : ConnState) (cache : CacheState)
    (queue : QueueState) (now : Nat) (up : Upstream)
    (name content : String) (project metadata : Option String) :
    DispatchResult :=
  let cache1 := setMemory maxBytes cache now name content project metadata
  let queuedResult (calls : List UpstreamCall) : DispatchResult :=
    { envelope := { data := some (.success true), error := none,
                    metadata := { createMetadata conn "cache" none with
                                  warning := some queuedWarning } }
      cache := cache1
      queue := queueOperation queue now "set_memory"
        (.mem name content project metadata)
      calls := calls }
  if conn = ConnState.connected then
    match up.setMemory name content project metadata with
    | .ok _ =>
      { envelope := { data := some (.success false), error := none,
                      metadata := createMetadata conn "live" none }
        cache := cache1, queue := queue,
        calls := [.setMem name content project metadata] }
    | .error _ => queuedResult [.setMem name content project metadata]
  else queuedResult []

/-- `handleGenericTool`: forward to upstream; no caching. -/
def handleGenericTool (conn : ConnState) (cache : CacheState)
    (queue : QueueState) (up : Upstream) (name : String) (args : ToolArgs) :
    DispatchResult :=
  let unavailable : Envelope :=
    { data := none
      error := some
        { code := "UNAVAILABLE"
          message := "QwickBrain unavailable - cannot call tool: " ++ name
          suggestions := ["Check internet connection",
            "Wait for automatic reconnection"] }
      metadata := createMetadata conn "cache" none }
  if conn ≠ ConnState.connected then
    { envelope := unavailable, cache := cache, queue := queue, calls := [] }
  else
    match up.callTool name args with
    | .ok text =>
      { envelope := { data := some (.raw text), error := none,
                      metadata := createMetadata conn "live" none }
        cache := cache, queue := queue, calls := [.tool name args] }
    | .error e =>
      let toolError : Envelope :=
        { data := none
          error := some { code := "TOOL_ERROR",
                          message := "Tool call failed: " ++ e,
                          suggestions := [] }
          metadata := createMetadata conn "cache" none }
      { envelope := toolError, cache := cache, queue := queue,
        calls := [.tool name args] }

/-- The OFFLINE envelope returned by the default branch of the tool-call
switch for a connection-requiring tool while not connected. -/
def offlineEnvelope (conn : ConnState) (name : String) : Envelope :=
  { data := none
    error := some
      { code := "OFFLINE"
        message := "QwickBrain offline - \"" ++ name ++
          "\" requires active connection"
        suggestions := ["Check internet connection",
          "Wait for automatic reconnection",
          "Cached tools (get_workflow, get_document, get_memory) work offline"] }
    metadata := { source := "cache", ageSeconds := none, status := conn,
                  warning := none } }

/-- The `CallToolRequestSchema` handler: the switch over tool names from
`ProxyServer.setupHandlers`.  Note that `delete_document` and
`delete_memory` have no case of their own and therefore take the default
(generic-forwarding) branch. -/
def dispatch (maxBytes : Nat) (conn : ConnState) (cache : CacheState)
    (queue : QueueState) (now : Nat) (up : Upstream) (name : String)
    (args : ToolArgs) : DispatchResult :=
  if name = "get_workflow" then
    handleGetDocument maxBytes conn cache queue now up "workflow" args.name none
  else if name = "get_document" then
    handleGetDocument maxBytes conn cache queue now up args.docType args.name
      args.project
  else if name = "get_memory" then
    handleGetMemory maxBytes conn cache queue now up args.name args.project
  else if name = "create_document" || name = "update_document" then
    handleCreateDocument maxBytes conn cache queue now up args.docType
      args.name args.content args.project args.metadata
  else if name = "set_memory" || name = "update_memory" then
    handleSetMemory maxBytes conn cache queue now up args.name args.content
      args.project args.metadata
  else if requiresConnection name && !(conn = ConnState.connected) then
    { envelope := offlineEnvelope conn name, cache := cache, queue := queue,
      calls := [] }
  else handleGenericTool conn cache queue up name args

/-! ## Concrete scenario inputs used by counterexamples and witnesses -/

/-- An upstream oracle for offline scenarios: every call would fail.  The
dispatcher theorems show these branches never reach the oracle. -/
def unreachableUpstream : Upstream :=
  { getDocument := fun _ _ _ => .error "offline"
    getMemory := fun _ _ => .error "offline"
    createDocument := fun _ _ _ _ _ => .error "offline"
    setMemory := fun _ _ _ _ => .error "offline"
    callTool := fun _ _ => .error "offline" }

/-- Arguments of a `delete_document` call for the frd document "x". -/
def deleteDocArgs : ToolArgs :=
  { name := "x", docType := "frd", content := "", project := none,
    metadata := none }

/-- A cache holding the single non-critical document (frd, "x", ""). -/
def scenC1cache : CacheState :=
  setDocument 100 CacheState.empty 0 "frd" "x" "body" none none

/-- Scenario for the LRU-ordering counterexample (budget 10 bytes):
a memory of 4 bytes written at t = 1000 ms, then a document of 4 bytes
written at t = 2000 ms. -/
def scenC2pre : CacheState :=
  setDocument 10 (setMemory 10 CacheState.empty 1000 "m" "aaaa" none none)
    2000 "frd" "d" "bbbb" none none

/-- The insert that forces an eviction in the ordering scenario. -/
def scenC2run : CacheState × List DocRow × List MemRow :=
  setDocumentFull 10 scenC2pre 3000 "frd" "x" "cccc" none none

/-- The `i`-th of the 101 zero-byte frd documents surviving in the
eviction-batch scenario (ids 101-201, access times 100-200 ms). -/
def c3zeroRow (i : Nat) : DocRow :=
  { id := i + 101, docType := "frd", name := "z" ++ toString (i + 100),
    project := "", content := "", metadata := none, cachedAt := i + 100,
    lastAccessedAt := i + 100, isCritical := false, sizeBytes := 0 }

/-- A six-byte frd document of the eviction-batch scenario. -/
def c3bigRow (id t : Nat) (nm : String) : DocRow :=
  { id := id, docType := "frd", name := nm, project := "",
    content := "aaaaaa", metadata := none, cachedAt := t,
    lastAccessedAt := t, isCritical := false, sizeBytes := 6 }

/-- The cache state reached from `CacheState.empty` with
`maxDynamicCacheSize = 10` by inserting the zero-byte documents
z0 ... z200 at times 0 ... 200 ms (none of which triggers eviction), then
"b1" (6 bytes, t = 300; 0 + 6 <= 10, no eviction) and "b2" (6 bytes,
t = 301; the eviction scan deletes the 100 oldest zero-byte rows, freeing
0 bytes, and the insert proceeds).  101 zero-byte rows remain alongside
"b1" and "b2", and the dynamic tier already holds 12 bytes. -/
def c3pre : CacheState :=
  ⟨(List.range 101).map c3zeroRow ++
     [c3bigRow 202 300 "b1", c3bigRow 203 301 "b2"], [], 204, 1⟩

/-- Same key written at t = 0 and rewritten at t = 5000 ms. -/
def scenC4pre : CacheState :=
  setDocument 100 (setDocument 100 CacheState.empty 0 "frd" "n" "v1" none
    none) 5000 "frd" "n" "v2" none none

/-- The write-tool set as the specification partitions the catalog
(`create_document`, `update_document`, `set_memory`, `update_memory`,
`delete_document`, `delete_memory`); used to state which tools are
pass-through.  This definition follows the spec text, not the code: the
code has no such list. -/
def specWriteTools : List String :=
  ["create_document", "update_document", "set_memory", "update_memory",
   "delete_document", "delete_memory"]

/-- An upstream executor for replay scenarios in which every call fails. -/
def failExec : QueueRow → Except String Unit := fun _ => .error "network error"

/-- A queue with one operation enqueued at t = 1. -/
def scenC5enq : QueueState :=
  queueOperation QueueState.empty 1 "create_document"
    (QueuePayload.doc "frd" "x" "body" none none)

/-- The queue after three replay passes that all fail upstream: the row
has exhausted its three attempts. -/
def scenC5 : QueueState :=
  (syncPendingOperations (syncPendingOperations (syncPendingOperations
    scenC5enq failExec 2).state failExec 3).state failExec 4).state

/-- Two operations enqueued in order at t = 1 and t = 2. -/
def scenC6 : QueueState :=
  queueOperation (queueOperation QueueState.empty 1 "create_document"
      (QueuePayload.doc "frd" "a" "A" none none)) 2 "set_memory"
    (QueuePayload.mem "b" "B" none none)

/-! ## Lemmas about the stable sort -/

theorem insertLe_perm {α : Type} (le : α → α → Bool) (a : α) (l : List α) :
    (insertLe le a l).Perm (a :: l) := by
  induction l with
  | nil => simp [insertLe]
  | cons b bs ih =>
    simp only [insertLe]
    split
    · exact List.Perm.refl _
    · exact (List.Perm.cons b ih).trans (List.Perm.swap a b bs)

theorem mem_insertLe {α : Type} {le : α → α → Bool} {a x : α} {l : List α} :
    x ∈ insertLe le a l ↔ x = a ∨ x ∈ l := by
  have h := (insertLe_perm le a l).mem_iff (a := x)
  simpa using h

theorem sortLe_perm {α : Type} (le : α → α → Bool) (l : List α) :
    (sortLe le l).Perm l := by
  induction l with
  | nil => simp [sortLe]
  | cons a as ih =>
    exact (insertLe_perm le a (sortLe le as)).trans (List.Perm.cons a ih)

theorem insertLe_pairwise {α : Type} {le : α → α → Bool}
    (htot : ∀ x y, le x y || le y x)
    (htrans : ∀ x y z, le x y = true → le y z = true → le x z = true)
    (a : α) {l : List α} (h : List.Pairwise (fun x y => le x y = true) l) :
    List.Pairwise (fun x y => le x y = true) (insertLe le a l) := by
  induction l with
  | nil => simp [insertLe]
  | cons b bs ih =>
    rw [List.pairwise_cons] at h
    obtain ⟨hb, hbs⟩ := h
    simp only [insertLe]
    split
    · rename_i hab
      refine List.Pairwise.cons ?_ (List.Pairwise.cons hb hbs)
      intro x hx
      rcases List.mem_cons.mp hx with rfl | hx
      · exact hab
      · exact htrans a b x hab (hb x hx)
    · rename_i hab
      have hba : le b a = true := by
        have := htot a b
        simp only [Bool.or_eq_true] at this
        rcases this with h' | h'
        · exact absurd h' hab
        · exact h'
      refine List.Pairwise.cons ?_ (ih hbs)
      intro x hx
      rcases mem_insertLe.mp hx with rfl | hx
      · exact hba
      · exact hb x hx

theorem sortLe_pairwise {α : Type} {le : α → α → Bool}
    (htot : ∀ x y, le x y || le y x)
    (htrans : ∀ x y z, le x y = true → le y z = true → le x z = true)
    (l : List α) :
    List.Pairwise (fun x y => le x y = true) (sortLe le l) := by
  induction l with
  | nil => simp [sortLe]
  | cons a as ih => exact insertLe_pairwise htot htrans a ih

/-- A list already sorted for `le` is left unchanged: the stable sort of a
table already in key order is the table itself. -/
theorem sortLe_eq_self {α : Type} {le : α → α → Bool} {l : List α}
    (h : List.Pairwise (fun x y => le x y = true) l) : sortLe le l = l := by
  induction l with
  | nil => rfl
  | cons a as ih =>
    rw [List.pairwise_cons] at h
    obtain ⟨ha, has⟩ := h
    simp only [sortLe, ih has]
    cases as with
    | nil => rfl
    | cons b bs =>
      simp only [insertLe, ha b (by simp), if_true]

/-! ## Lemmas about the eviction loop and row deletion -/

/-- `evictLoop` deletes an initial segment of its candidate list, frees
exactly the bytes of that segment, and stops only when the target is met
or the candidates are exhausted. -/
theorem evictLoop_spec {α : Type} (size : α → Nat) (need : Nat) :
    ∀ (l : List α) (f0 : Nat), ∃ k,
      (evictLoop size need l f0).1 = l.take k ∧
      (evictLoop size need l f0).2 = f0 + ((l.take k).map size).sum ∧
      (need ≤ (evictLoop size need l f0).2 ∨ (evictLoop size need l f0).1 = l) := by
  intro l
  induction l with
  | nil =>
    intro f0
    exact ⟨0, by simp [evictLoop]⟩
  | cons r rest ih =>
    intro f0
    by_cases h : need ≤ f0
    · refine ⟨0, ?_, ?_, Or.inl ?_⟩ <;> simp [evictLoop, h]
    · obtain ⟨k, hk1, hk2, hk3⟩ := ih (f0 + size r)
      refine ⟨k + 1, ?_, ?_, ?_⟩
      · simp only [evictLoop, if_neg h, List.take_succ_cons, hk1]
      · simp only [evictLoop, if_neg h, List.take_succ_cons, List.map_cons,
          List.sum_cons, hk2]
        omega
      · simp only [evictLoop, if_neg h, List.take_succ_cons]
        rcases hk3 with h' | h'
        · exact Or.inl h'
        · exact Or.inr (by rw [h'])

/-- Deleting, from a table with distinct primary keys, exactly the rows of
the `ev` part of a permutation `rows ~ ev ++ rest` leaves `rest`. -/
theorem filter_perm_of_perm_append {α : Type} (key : α → Nat)
    {rows ev rest : List α} (hperm : rows.Perm (ev ++ rest))
    (hnd : (rows.map key).Nodup) :
    (rows.filter (fun r => !((ev.map key).contains (key r)))).Perm rest := by
  set q : α → Bool := fun r => !((ev.map key).contains (key r)) with hq
  have h1 : (rows.filter q).Perm ((ev ++ rest).filter q) := hperm.filter q
  have hnd' : ((ev ++ rest).map key).Nodup := ((hperm.map key).nodup_iff).mp hnd
  rw [List.map_append, List.nodup_append] at hnd'
  have hev : ev.filter q = [] := by
    rw [List.filter_eq_nil_iff]
    intro a ha
    simp only [hq, Bool.not_eq_true', Bool.not_eq_false]
    have : key a ∈ ev.map key := List.mem_map_of_mem key ha
    simpa using this
  have hrest : rest.filter q = rest := by
    rw [List.filter_eq_self]
    intro a ha
    simp only [hq, Bool.not_eq_true']
    have : key a ∉ ev.map key := fun hmem =>
      (hnd'.2.2 hmem) (List.mem_map_of_mem key ha)
    simpa using this
  rw [List.filter_append, hev, hrest, List.nil_append] at h1
  exact h1

theorem docLruLe_total : ∀ a b : DocRow, docLruLe a b || docLruLe b a := by
  intro a b
  simp only [docLruLe, Bool.or_eq_true, Bool.and_eq_true, decide_eq_true_eq]
  omega

theorem docLruLe_trans : ∀ a b c : DocRow, docLruLe a b = true →
    docLruLe b c = true → docLruLe a c = true := by
  intro a b c
  simp only [docLruLe, Bool.or_eq_true, Bool.and_eq_true, decide_eq_true_eq]
  omega

theorem memLruLe_total : ∀ a b : MemRow, memLruLe a b || memLruLe b a := by
  intro a b
  simp only [memLruLe, Bool.or_eq_true, Bool.and_eq_true, decide_eq_true_eq]
  omega

theorem memLruLe_trans : ∀ a b c : MemRow, memLruLe a b = true →
    memLruLe b c = true → memLruLe a c = true := by
  intro a b c
  simp only [memLruLe, Bool.or_eq_true, Bool.and_eq_true, decide_eq_true_eq]
  omega

/-- Updating the unique row with a given key changes a sum over the table
by exactly the change to that row. -/
theorem update_unique_sum {α : Type} (key : α → Nat) (σ : α → Nat)
    (f : α → α) :
    ∀ {l : List α} {r : α}, (l.map key).Nodup → r ∈ l →
    ((l.map (fun x => if key x = key r then f x else x)).map σ).sum + σ r =
      (l.map σ).sum + σ (f r) := by
  intro l
  induction l with
  | nil => intro r _ hr; cases hr
  | cons d ds ih =>
    intro r hnd hr
    rw [List.map_cons, List.nodup_cons] at hnd
    obtain ⟨hdnot, hndds⟩ := hnd
    by_cases h : key d = key r
    · have hrd : r = d := by
        rcases List.mem_cons.mp hr with rfl | hmem
        · rfl
        · exact absurd (h ▸ List.mem_map_of_mem key hmem) hdnot
      subst hrd
      have hds : ds.map (fun x => if key x = key r then f x else x) = ds := by
        have h2 : ds.map (fun x => if key x = key r then f x else x) =
            ds.map id := by
          refine List.map_congr_left ?_
          intro x hx
          simp only [id_eq]
          rw [if_neg]
          exact fun hkx => hdnot (hkx ▸ List.mem_map_of_mem key hx)
        rw [h2, List.map_id]
      simp only [List.map_cons, hds, List.sum_cons, if_pos rfl,
        eq_self_iff_true, if_true]
      omega
    · have hrds : r ∈ ds := by
        rcases List.mem_cons.mp hr with rfl | hmem
        · exact absurd rfl h
        · exact hmem
      have hrec := ih hndds hrds
      simp only [List.map_cons, List.sum_cons, if_neg h]
      omega

/-- Rows of a table with `Nodup` primary keys are determined by their key. -/
theorem row_eq_of_key_eq {α : Type} (key : α → Nat) {l : List α}
    (hnd : (l.map key).Nodup) {a b : α} (ha : a ∈ l) (hb : b ∈ l)
    (hk : key a = key b) : a = b :=
  List.inj_on_of_nodup_map hnd ha hb hk

/-- Full characterization of one `evictLRU` call on a database with
distinct primary keys: the evicted rows of each table form an initial
segment of that table in LRU order, the surviving rows are the rest, the
critical documents are untouched, and the loop stops only once the freed
bytes meet the target or every candidate of both tables is deleted. -/
theorem evictLRU_spec (s : CacheState) (need : Nat) {s' : CacheState}
    {evD : List DocRow} {evM : List MemRow}
    (hE : evictLRU s need = (s', evD, evM))
    (hnd_d : (s.docs.map DocRow.id).Nodup)
    (hnd_m : (s.mems.map MemRow.id).Nodup) :
    ∃ kd km,
      evD = (sortLe docLruLe (s.docs.filter (fun d => !d.isCritical))).take kd ∧
      evM = (sortLe memLruLe s.mems).take km ∧
      (s'.docs.filter (fun d => !d.isCritical)).Perm
        ((sortLe docLruLe (s.docs.filter (fun d => !d.isCritical))).drop kd) ∧
      s'.docs.filter (fun d => d.isCritical) =
        s.docs.filter (fun d => d.isCritical) ∧
      s'.mems.Perm ((sortLe memLruLe s.mems).drop km) ∧
      s'.nextDocId = s.nextDocId ∧ s'.nextMemId = s.nextMemId ∧
      (s'.docs.map DocRow.id).Nodup ∧ (s'.mems.map MemRow.id).Nodup ∧
      (∀ x ∈ s'.docs, x ∈ s.docs) ∧ (∀ x ∈ s'.mems, x ∈ s.mems) ∧
      (need ≤ sumDocBytes evD + sumMemBytes evM ∨
        (evD = docCandidates s ∧ evM = memCandidates s)) := by
  obtain ⟨k1, hk11, hk12, hk13⟩ :=
    evictLoop_spec DocRow.sizeBytes need (docCandidates s) 0
  rcases hLoopD : evictLoop DocRow.sizeBytes need (docCandidates s) 0 with
    ⟨evD0, freed⟩
  rw [hLoopD] at hk11 hk12 hk13
  simp only at hk11 hk12 hk13
  rcases hLoopM : (if freed < need then
      evictLoop MemRow.sizeBytes need (memCandidates s) freed
    else ([], freed)) with ⟨evM0, f2⟩
  have hE' : s' = { s with
        docs := s.docs.filter (fun d => !((evD0.map DocRow.id).contains d.id)),
        mems := s.mems.filter (fun m => !((evM0.map MemRow.id).contains m.id)) } ∧
      evD = evD0 ∧ evM = evM0 := by
    rw [evictLRU, hLoopD] at hE
    simp only at hE
    rw [hLoopM] at hE
    simp only [Prod.mk.injEq] at hE
    exact ⟨hE.1.symm, hE.2.1.symm, hE.2.2.symm⟩
  obtain ⟨hs', hevD, hevM⟩ := hE'
  subst hevD
  subst hevM
  set rows := s.docs.filter (fun d => !d.isCritical) with hrows
  set sortedD := sortLe docLruLe rows with hsortedD
  set sortedM := sortLe memLruLe s.mems with hsortedM
  have hndRows : (rows.map DocRow.id).Nodup :=
    ((List.filter_sublist s.docs).map DocRow.id).nodup hnd_d
  have hEvD : evD = sortedD.take (min k1 100) := by
    rw [hk11, docCandidates, List.take_take]
  have hpermD : rows.Perm (evD ++ sortedD.drop (min k1 100)) := by
    have h1 : rows.Perm sortedD := (sortLe_perm docLruLe rows).symm
    have h2 : sortedD = sortedD.take (min k1 100) ++ sortedD.drop (min k1 100) :=
      (List.take_append_drop _ _).symm
    rw [hEvD]
    exact h1.trans (h2 ▸ List.Perm.refl sortedD)
  have hSurvD : (s'.docs.filter (fun d => !d.isCritical)).Perm
      (sortedD.drop (min k1 100)) := by
    have hcomm : s'.docs.filter (fun d => !d.isCritical) =
        rows.filter (fun r => !((evD.map DocRow.id).contains r.id)) := by
      rw [hs']
      simp only [hrows, List.filter_filter]
      exact List.filter_congr (fun d _ => Bool.and_comm _ _)
    rw [hcomm]
    exact filter_perm_of_perm_append DocRow.id hpermD hndRows
  have hCritD : s'.docs.filter (fun d => d.isCritical) =
      s.docs.filter (fun d => d.isCritical) := by
    rw [hs']
    simp only [List.filter_filter]
    refine List.filter_congr ?_
    intro d hd
    cases hcrit : d.isCritical with
    | false => simp
    | true =>
      simp only [Bool.true_and, Bool.and_true]
      simp only [Bool.not_eq_true']
      rw [List.contains_eq_any_beq]
      rw [List.any_eq_false]
      intro x hx
      simp only [beq_iff_eq]
      intro hxid
      obtain ⟨e, heEv, heid⟩ := List.mem_map.mp hx
      have heRows : e ∈ rows := by
        have : e ∈ sortedD := by
          have := hEvD ▸ heEv
          exact List.take_subset _ _ this
        exact (sortLe_perm docLruLe rows).subset this
      have heDocs : e ∈ s.docs := (List.mem_filter.mp heRows).1
      have heNotCrit : e.isCritical = false := by
        have := (List.mem_filter.mp heRows).2
        simpa using this
      have : d = e := row_eq_of_key_eq DocRow.id hnd_d hd heDocs
        (by rw [heid, hxid])
      rw [this, heNotCrit] at hcrit
      exact Bool.false_ne_true hcrit
  have hndD1 : (s'.docs.map DocRow.id).Nodup := by
    rw [hs']
    exact ((List.filter_sublist s.docs).map DocRow.id).nodup hnd_d
  have hndM1 : (s'.mems.map MemRow.id).Nodup := by
    rw [hs']
    exact ((List.filter_sublist s.mems).map MemRow.id).nodup hnd_m
  have hsubD1 : ∀ x ∈ s'.docs, x ∈ s.docs := by
    rw [hs']
    exact fun x hx => List.mem_of_mem_filter hx
  have hsubM1 : ∀ x ∈ s'.mems, x ∈ s.mems := by
    rw [hs']
    exact fun x hx => List.mem_of_mem_filter hx
  by_cases hcase : freed < need
  · rw [if_pos hcase] at hLoopM
    obtain ⟨k2, hm1, hm2, hm3⟩ :=
      evictLoop_spec MemRow.sizeBytes need (memCandidates s) freed
    rw [hLoopM] at hm1 hm2 hm3
    simp only at hm1 hm2 hm3
    have hEvM : evM = sortedM.take (min k2 100) := by
      rw [hm1, memCandidates, List.take_take]
    have hpermM : s.mems.Perm (evM ++ sortedM.drop (min k2 100)) := by
      have h1 : s.mems.Perm sortedM := (sortLe_perm memLruLe s.mems).symm
      have h2 : sortedM = sortedM.take (min k2 100) ++ sortedM.drop (min k2 100) :=
        (List.take_append_drop _ _).symm
      rw [hEvM]
      exact h1.trans (h2 ▸ List.Perm.refl sortedM)
    have hSurvM : s'.mems.Perm (sortedM.drop (min k2 100)) := by
      rw [hs']
      exact filter_perm_of_perm_append MemRow.id hpermM hnd_m
    refine ⟨min k1 100, min k2 100, hEvD, hEvM, hSurvD, hCritD, hSurvM,
      by rw [hs'], by rw [hs'], hndD1, hndM1, hsubD1, hsubM1, ?_⟩
    have hfreed : freed = sumDocBytes evD := by
      rw [hk12, hk11, sumDocBytes, Nat.zero_add]
    rcases hk13 with h' | h'
    · omega
    · rcases hm3 with h'' | h''
      · left
        have : f2 = freed + sumMemBytes evM := by
          rw [hm2, hm1, sumMemBytes]
        omega
      · right
        exact ⟨h', h''⟩
  · rw [if_neg hcase] at hLoopM
    simp only [Prod.mk.injEq] at hLoopM
    have hEvM : evM = [] := hLoopM.1.symm
    have hMemsEq : s'.mems = s.mems := by
      rw [hs', hEvM]
      simp
    refine ⟨min k1 100, 0, hEvD, by simp [hEvM], hSurvD, hCritD, ?_,
      by rw [hs'], by rw [hs'], hndD1, hndM1, hsubD1, hsubM1, ?_⟩
    · rw [hMemsEq, List.drop_zero]
      exact (sortLe_perm memLruLe s.mems).symm
    · left
      have hfreed : freed = sumDocBytes evD := by
        rw [hk12, hk11, sumDocBytes, Nat.zero_add]
      rw [hEvM]
      simp only [sumMemBytes, List.map_nil, List.sum_nil]
      omega

/-- A row transformation that preserves the filtering predicate commutes
with `filter`. -/
theorem filter_map_comm {α : Type} (p : α → Bool) (g : α → α)
    (hg : ∀ x, p (g x) = p x) :
    ∀ l : List α, (l.map g).filter p = (l.filter p).map g := by
  intro l
  induction l with
  | nil => rfl
  | cons a as ih =>
    simp only [List.map_cons]
    by_cases h : p a = true
    · rw [List.filter_cons_of_pos (by rw [hg]; exact h),
        List.filter_cons_of_pos h, List.map_cons, ih]
    · rw [List.filter_cons_of_neg (by rw [hg]; exact h),
        List.filter_cons_of_neg h, ih]

theorem docLruLe_la {a b : DocRow} (h : docLruLe a b = true) :
    a.lastAccessedAt ≤ b.lastAccessedAt := by
  simp only [docLruLe, Bool.or_eq_true, Bool.and_eq_true,
    decide_eq_true_eq] at h
  omega

theorem memLruLe_la {a b : MemRow} (h : memLruLe a b = true) :
    a.lastAccessedAt ≤ b.lastAccessedAt := by
  simp only [memLruLe, Bool.or_eq_true, Bool.and_eq_true,
    decide_eq_true_eq] at h
  omega

/-- Size accounting for a non-critical `ensureCacheSize` call on a small
enough database (each eviction scan sees the whole table when it holds at
most 100 candidate rows): afterwards either the dynamic tier has room for
the required bytes, or every dynamic row has been deleted.  Critical
documents are untouched either way. -/
theorem ensureCacheSize_bound (maxBytes req : Nat) {s s1 : CacheState}
    {evD : List DocRow} {evM : List MemRow}
    (hE : ensureCacheSize maxBytes s req false = (s1, evD, evM))
    (hnd_d : (s.docs.map DocRow.id).Nodup)
    (hnd_m : (s.mems.map MemRow.id).Nodup)
    (hcount_d : (s.docs.filter (fun d => !d.isCritical)).length ≤ 100)
    (hcount_m : s.mems.length ≤ 100) :
    (getDynamicCacheSize s1 + req ≤ maxBytes ∨
      (s1.docs.filter (fun d => !d.isCritical) = [] ∧ s1.mems = [])) ∧
    s1.docs.filter (fun d => d.isCritical) =
      s.docs.filter (fun d => d.isCritical) ∧
    (s1.docs.map DocRow.id).Nodup ∧ (s1.mems.map MemRow.id).Nodup ∧
    (∀ x ∈ s1.docs, x ∈ s.docs) ∧ (∀ x ∈ s1.mems, x ∈ s.mems) := by
  rw [ensureCacheSize] at hE
  simp only [Bool.false_eq_true, if_false] at hE
  split at hE
  · rename_i hfits
    simp only [Prod.mk.injEq] at hE
    obtain ⟨h1, _, _⟩ := hE
    subst h1
    exact ⟨Or.inl hfits, rfl, hnd_d, hnd_m, fun x hx => hx, fun x hx => hx⟩
  · rename_i hnofit
    obtain ⟨kd, km, hEvD, hEvM, hSurvD, hCritD, hSurvM, _, _, hndD1, hndM1,
      hsubD1, hsubM1, hDisj⟩ := evictLRU_spec s _ hE hnd_d hnd_m
    set rows := s.docs.filter (fun d => !d.isCritical) with hrows
    set sortedD := sortLe docLruLe rows with hsortedD
    set sortedM := sortLe memLruLe s.mems with hsortedM
    refine ⟨?_, hCritD, hndD1, hndM1, hsubD1, hsubM1⟩
    have eqD : sumDocBytes evD +
        sumDocBytes (s1.docs.filter (fun d => !d.isCritical)) =
        sumDocBytes rows := by
      have h1 : sumDocBytes (s1.docs.filter (fun d => !d.isCritical)) =
          sumDocBytes (sortedD.drop kd) := by
        exact (hSurvD.map DocRow.sizeBytes).sum_eq
      have h2 : sumDocBytes (sortedD.take kd) + sumDocBytes (sortedD.drop kd) =
          sumDocBytes sortedD := by
        simp only [sumDocBytes, List.map_take, List.map_drop]
        exact List.sum_take_add_sum_drop _ kd
      have h3 : sumDocBytes sortedD = sumDocBytes rows :=
        ((sortLe_perm docLruLe rows).map DocRow.sizeBytes).sum_eq
      rw [h1, hEvD]
      omega
    have eqM : sumMemBytes evM + sumMemBytes s1.mems = sumMemBytes s.mems := by
      have h1 : sumMemBytes s1.mems = sumMemBytes (sortedM.drop km) :=
        (hSurvM.map MemRow.sizeBytes).sum_eq
      have h2 : sumMemBytes (sortedM.take km) + sumMemBytes (sortedM.drop km) =
          sumMemBytes sortedM := by
        simp only [sumMemBytes, List.map_take, List.map_drop]
        exact List.sum_take_add_sum_drop _ km
      have h3 : sumMemBytes sortedM = sumMemBytes s.mems :=
        ((sortLe_perm memLruLe s.mems).map MemRow.sizeBytes).sum_eq
      rw [h1, hEvM]
      omega
    have hdynS : getDynamicCacheSize s = sumDocBytes rows + sumMemBytes s.mems :=
      rfl
    have hdynS1 : getDynamicCacheSize s1 =
        sumDocBytes (s1.docs.filter (fun d => !d.isCritical)) +
          sumMemBytes s1.mems := rfl
    rcases hDisj with hle | ⟨hAllD, hAllM⟩
    · left
      omega
    · right
      constructor
      · have hlen : sortedD.length ≤ 100 := by
          rw [(sortLe_perm docLruLe rows).length_eq]
          exact hcount_d
        have hfull : sortedD.take kd = sortedD := by
          rw [← hEvD, hAllD, docCandidates]
          exact (List.take_of_length_le hlen).symm ▸ rfl
        have hkd : sortedD.length ≤ kd := (List.take_eq_self_iff _).mp hfull
        have : sortedD.drop kd = [] := List.drop_eq_nil_of_le hkd
        rw [this] at hSurvD
        exact hSurvD.eq_nil
      · have hlen : sortedM.length ≤ 100 := by
          rw [(sortLe_perm memLruLe s.mems).length_eq]
          exact hcount_m
        have hfull : sortedM.take km = sortedM := by
          rw [← hEvM, hAllM, memCandidates]
          exact (List.take_of_length_le hlen).symm ▸ rfl
        have hkm : sortedM.length ≤ km := (List.take_eq_self_iff _).mp hfull
        have : sortedM.drop km = [] := List.drop_eq_nil_of_le hkm
        rw [this] at hSurvM
        exact hSurvM.eq_nil

/-- LRU ordering of one `ensureCacheSize` call, per table: every evicted
document was least-recently-used among the surviving dynamic documents,
and likewise for memories; evicted rows come from the original tables. -/
theorem ensureCacheSize_order (maxBytes req : Nat) (crit : Bool)
    {s s1 : CacheState} {evD : List DocRow} {evM : List MemRow}
    (hE : ensureCacheSize maxBytes s req crit = (s1, evD, evM))
    (hnd_d : (s.docs.map DocRow.id).Nodup)
    (hnd_m : (s.mems.map MemRow.id).Nodup) :
    (∀ e ∈ evD, ∀ x ∈ s1.docs, x.isCritical = false →
      e.lastAccessedAt ≤ x.lastAccessedAt) ∧
    (∀ e ∈ evM, ∀ x ∈ s1.mems, e.lastAccessedAt ≤ x.lastAccessedAt) ∧
    (∀ e ∈ evD, e ∈ s.docs) ∧ (∀ e ∈ evM, e ∈ s.mems) ∧
    (s1.docs.map DocRow.id).Nodup ∧ (s1.mems.map MemRow.id).Nodup ∧
    (∀ x ∈ s1.docs, x ∈ s.docs) ∧ (∀ x ∈ s1.mems, x ∈ s.mems) := by
  rw [ensureCacheSize] at hE
  cases crit with
  | true =>
    simp only [if_true] at hE
    simp only [Prod.mk.injEq] at hE
    obtain ⟨h1, h2, h3⟩ := hE
    subst h1
    rw [← h2, ← h3]
    exact ⟨by simp, by simp, by simp, by simp, hnd_d, hnd_m,
      fun x hx => hx, fun x hx => hx⟩
  | false =>
    simp only [Bool.false_eq_true, if_false] at hE
    split at hE
    · simp only [Prod.mk.injEq] at hE
      obtain ⟨h1, h2, h3⟩ := hE
      subst h1
      rw [← h2, ← h3]
      exact ⟨by simp, by simp, by simp, by simp, hnd_d, hnd_m,
        fun x hx => hx, fun x hx => hx⟩
    · obtain ⟨kd, km, hEvD, hEvM, hSurvD, hCritD, hSurvM, _, _, hndD1, hndM1,
        hsubD1, hsubM1, _⟩ := evictLRU_spec s _ hE hnd_d hnd_m
      set rows := s.docs.filter (fun d => !d.isCritical) with hrows
      set sortedD := sortLe docLruLe rows with hsortedD
      set sortedM := sortLe memLruLe s.mems with hsortedM
      have hPWD : List.Pairwise (fun x y => docLruLe x y = true) sortedD :=
        sortLe_pairwise docLruLe_total docLruLe_trans rows
      have hPWM : List.Pairwise (fun x y => memLruLe x y = true) sortedM :=
        sortLe_pairwise memLruLe_total memLruLe_trans s.mems
      have hsplitD := (List.take_append_drop kd sortedD).symm
      have hsplitM := (List.take_append_drop km sortedM).symm
      rw [hsplitD] at hPWD
      rw [hsplitM] at hPWM
      obtain ⟨_, _, hcrossD⟩ := List.pairwise_append.mp hPWD
      obtain ⟨_, _, hcrossM⟩ := List.pairwise_append.mp hPWM
      refine ⟨?_, ?_, ?_, ?_, hndD1, hndM1, hsubD1, hsubM1⟩
      · intro e he x hx hxcrit
        have hxdyn : x ∈ s1.docs.filter (fun d => !d.isCritical) :=
          List.mem_filter.mpr ⟨hx, by rw [hxcrit]; rfl⟩
        have hxdrop : x ∈ sortedD.drop kd := hSurvD.subset hxdyn
        have hetake : e ∈ sortedD.take kd := hEvD ▸ he
        exact docLruLe_la (hcrossD e hetake x hxdrop)
      · intro e he x hx
        have hxdrop : x ∈ sortedM.drop km := hSurvM.subset hx
        have hetake : e ∈ sortedM.take km := hEvM ▸ he
        exact memLruLe_la (hcrossM e hetake x hxdrop)
      · intro e he
        have : e ∈ sortedD := List.take_subset _ _ (hEvD ▸ he)
        have : e ∈ rows := (sortLe_perm docLruLe rows).subset this
        exact List.mem_of_mem_filter this
      · intro e he
        have : e ∈ sortedM := List.take_subset _ _ (hEvM ▸ he)
        exact (sortLe_perm memLruLe s.mems).subset this

/-- Per-table LRU ordering of a `setDocument` call: every row evicted to
make room was least-recently-used, within its own table, among the rows
still present afterwards (the fresh row itself carries the current
clock). -/
theorem setDocumentFull_order (maxBytes now : Nat)
    (docType name content : String) (project metadata : Option String)
    {s s' : CacheState} {evD : List DocRow} {evM : List MemRow}
    (hE : setDocumentFull maxBytes s now docType name content project
      metadata = (s', evD, evM))
    (hnd_d : (s.docs.map DocRow.id).Nodup)
    (hnd_m : (s.mems.map MemRow.id).Nodup)
    (hclock_d : ∀ d ∈ s.docs, d.lastAccessedAt ≤ now)
    (hclock_m : ∀ m ∈ s.mems, m.lastAccessedAt ≤ now) :
    (∀ e ∈ evD, ∀ x ∈ s'.docs, x.isCritical = false →
      e.lastAccessedAt ≤ x.lastAccessedAt) ∧
    (∀ e ∈ evM, ∀ x ∈ s'.mems, e.lastAccessedAt ≤ x.lastAccessedAt) := by
  rcases hEn : ensureCacheSize maxBytes s content.utf8ByteSize
    (CRITICAL_DOC_TYPES.contains docType) with ⟨s1, evD1, evM1⟩
  obtain ⟨hordD, hordM, hmemD, hmemM, _, _, _, _⟩ :=
    ensureCacheSize_order maxBytes content.utf8ByteSize
      (CRITICAL_DOC_TYPES.contains docType) hEn hnd_d hnd_m
  rw [setDocumentFull] at hE
  simp only at hE
  rw [hEn] at hE
  simp only at hE
  cases hfind : findDoc s1.docs docType name (normProject project) with
  | some row =>
    rw [hfind] at hE
    simp only [Prod.mk.injEq] at hE
    obtain ⟨hs', hevD, hevM⟩ := hE
    subst hevD; subst hevM
    constructor
    · intro e he x hx hxcrit
      rw [← hs'] at hx
      simp only at hx
      obtain ⟨y, hy, hgy⟩ := List.mem_map.mp hx
      by_cases hid : y.id = row.id
      · rw [if_pos hid] at hgy
        have hxla : x.lastAccessedAt = now := by rw [← hgy]
        rw [hxla]
        exact hclock_d e (hmemD e he)
      · rw [if_neg hid] at hgy
        subst hgy
        exact hordD e he y hy hxcrit
    · intro e he x hx
      rw [← hs'] at hx
      simp only at hx
      exact hordM e he x hx
  | none =>
    rw [hfind] at hE
    simp only [Prod.mk.injEq] at hE
    obtain ⟨hs', hevD, hevM⟩ := hE
    subst hevD; subst hevM
    constructor
    · intro e he x hx hxcrit
      rw [← hs'] at hx
      simp only [List.mem_append, List.mem_singleton] at hx
      rcases hx with hx | rfl
      · exact hordD e he x hx hxcrit
      · simp only
        exact hclock_d e (hmemD e he)
    · intro e he x hx
      rw [← hs'] at hx
      simp only at hx
      exact hordM e he x hx

/-- Per-table LRU ordering of a `setMemory` call, symmetric to
`setDocumentFull_order`. -/
theorem setMemoryFull_order (maxBytes now : Nat) (name content : String)
    (project metadata : Option String)
    {s s' : CacheState} {evD : List DocRow} {evM : List MemRow}
    (hE : setMemoryFull maxBytes s now name content project metadata =
      (s', evD, evM))
    (hnd_d : (s.docs.map DocRow.id).Nodup)
    (hnd_m : (s.mems.map MemRow.id).Nodup)
    (hclock_d : ∀ d ∈ s.docs, d.lastAccessedAt ≤ now)
    (hclock_m : ∀ m ∈ s.mems, m.lastAccessedAt ≤ now) :
    (∀ e ∈ evD, ∀ x ∈ s'.docs, x.isCritical = false →
      e.lastAccessedAt ≤ x.lastAccessedAt) ∧
    (∀ e ∈ evM, ∀ x ∈ s'.mems, e.lastAccessedAt ≤ x.lastAccessedAt) := by
  rcases hEn : ensureCacheSize maxBytes s content.utf8ByteSize false with
    ⟨s1, evD1, evM1⟩
  obtain ⟨hordD, hordM, hmemD, hmemM, _, _, _, _⟩ :=
    ensureCacheSize_order maxBytes content.utf8ByteSize false hEn hnd_d hnd_m
  rw [setMemoryFull] at hE
  simp only at hE
  rw [hEn] at hE
  simp only at hE
  cases hfind : findMem s1.mems name (normProject project) with
  | some row =>
    rw [hfind] at hE
    simp only [Prod.mk.injEq] at hE
    obtain ⟨hs', hevD, hevM⟩ := hE
    subst hevD; subst hevM
    constructor
    · intro e he x hx hxcrit
      rw [← hs'] at hx
      simp only at hx
      exact hordD e he x hx hxcrit
    · intro e he x hx
      rw [← hs'] at hx
      simp only at hx
      obtain ⟨y, hy, hgy⟩ := List.mem_map.mp hx
      by_cases hid : y.id = row.id
      · rw [if_pos hid] at hgy
        have hxla : x.lastAccessedAt = now := by rw [← hgy]
        rw [hxla]
        exact hclock_m e (hmemM e he)
      · rw [if_neg hid] at hgy
        subst hgy
        exact hordM e he y hy
  | none =>
    rw [hfind] at hE
    simp only [Prod.mk.injEq] at hE
    obtain ⟨hs', hevD, hevM⟩ := hE
    subst hevD; subst hevM
    constructor
    · intro e he x hx hxcrit
      rw [← hs'] at hx
      simp only at hx
      exact hordD e he x hx hxcrit
    · intro e he x hx
      rw [← hs'] at hx
      simp only [List.mem_append, List.mem_singleton] at hx
      rcases hx with hx | rfl
      · exact hordM e he x hx
      · simp only
        exact hclock_m e (hmemM e he)

/-- Dynamic-tier budget after a non-critical `setDocument` on a database
with at most 100 candidate rows per eviction scan: at most one inserted
row of overshoot, and every critical row survives. -/
theorem setDocumentFull_bound (maxBytes now : Nat)
    (docType name content : String) (project metadata : Option String)
    {s s' : CacheState} {evD : List DocRow} {evM : List MemRow}
    (hE : setDocumentFull maxBytes s now docType name content project
      metadata = (s', evD, evM))
    (hnd_d : (s.docs.map DocRow.id).Nodup)
    (hnd_m : (s.mems.map MemRow.id).Nodup)
    (hcount_d : (s.docs.filter (fun d => !d.isCritical)).length ≤ 100)
    (hcount_m : s.mems.length ≤ 100)
    (hcrit : ∀ d ∈ s.docs, d.isCritical = CRITICAL_DOC_TYPES.contains d.docType)
    (hR : CRITICAL_DOC_TYPES.contains docType = false) :
    getDynamicCacheSize s' ≤ maxBytes + content.utf8ByteSize ∧
    (∀ d ∈ s.docs, d.isCritical = true → d ∈ s'.docs) := by
  rcases hEn : ensureCacheSize maxBytes s content.utf8ByteSize false with
    ⟨s1, evD1, evM1⟩
  obtain ⟨hA, hCritEq, hnd1d, hnd1m, hsub1d, hsub1m⟩ :=
    ensureCacheSize_bound maxBytes content.utf8ByteSize hEn hnd_d hnd_m
      hcount_d hcount_m
  have hkeep : ∀ d ∈ s.docs, d.isCritical = true → d ∈ s1.docs := by
    intro d hd hdcrit
    have : d ∈ s.docs.filter (fun d => d.isCritical) :=
      List.mem_filter.mpr ⟨hd, hdcrit⟩
    rw [← hCritEq] at this
    exact (List.mem_filter.mp this).1
  rw [setDocumentFull] at hE
  simp only at hE
  rw [hR] at hE
  rw [hEn] at hE
  simp only at hE
  cases hfind : findDoc s1.docs docType name (normProject project) with
  | none =>
    rw [hfind] at hE
    simp only [Prod.mk.injEq] at hE
    obtain ⟨hs', _, _⟩ := hE
    constructor
    · have hdyn' : getDynamicCacheSize s' =
          getDynamicCacheSize s1 + content.utf8ByteSize := by
        rw [← hs']
        simp only [getDynamicCacheSize, List.filter_append, sumDocBytes,
          List.map_append, List.sum_append]
        simp only [List.filter_cons, List.filter_nil, Bool.not_false,
          Bool.not_eq_eq_eq_not, Bool.not_true, if_true]
        simp only [List.map_cons, List.map_nil, List.sum_cons, List.sum_nil]
        omega
      rcases hA with hle | ⟨hD0, hM0⟩
      · omega
      · have : getDynamicCacheSize s1 = 0 := by
          simp [getDynamicCacheSize, hD0, hM0, sumDocBytes, sumMemBytes]
        omega
    · intro d hd hdcrit
      rw [← hs']
      simp only [List.mem_append]
      exact Or.inl (hkeep d hd hdcrit)
  | some row =>
    rw [hfind] at hE
    simp only [Prod.mk.injEq] at hE
    obtain ⟨hs', _, _⟩ := hE
    have hrow1 : row ∈ s1.docs := List.mem_of_find?_eq_some hfind
    have hrowKey := List.find?_some hfind
    simp only [Bool.and_eq_true, decide_eq_true_eq] at hrowKey
    have hrowCrit : row.isCritical = false := by
      have := hcrit row (hsub1d row hrow1)
      rw [hrowKey.1.1] at this
      rw [this, hR]
    have hrowDyn : row ∈ s1.docs.filter (fun d => !d.isCritical) :=
      List.mem_filter.mpr ⟨hrow1, by rw [hrowCrit]; rfl⟩
    have hgcrit : ∀ d : DocRow,
        ((if d.id = row.id then
            { d with content := content, metadata := metadata,
                     lastAccessedAt := now,
                     sizeBytes := content.utf8ByteSize }
          else d).isCritical) = d.isCritical := by
      intro d
      by_cases h : d.id = row.id <;> simp [h]
    constructor
    · have hnd1dyn : ((s1.docs.filter (fun d => !d.isCritical)).map
          DocRow.id).Nodup :=
        ((List.filter_sublist s1.docs).map DocRow.id).nodup hnd1d
      have hsum := update_unique_sum DocRow.id DocRow.sizeBytes
        (fun d => { d with content := content, metadata := metadata,
                           lastAccessedAt := now,
                           sizeBytes := content.utf8ByteSize })
        hnd1dyn hrowDyn
      have hcomm : (s1.docs.map (fun d =>
          if d.id = row.id then
            { d with content := content, metadata := metadata,
                     lastAccessedAt := now,
                     sizeBytes := content.utf8ByteSize }
          else d)).filter (fun d => !d.isCritical) =
          (s1.docs.filter (fun d => !d.isCritical)).map (fun d =>
            if d.id = row.id then
              { d with content := content, metadata := metadata,
                       lastAccessedAt := now,
                       sizeBytes := content.utf8ByteSize }
            else d) :=
        filter_map_comm _ _ (fun d => by rw [hgcrit]) s1.docs
      have hdyn' : getDynamicCacheSize s' + row.sizeBytes =
          getDynamicCacheSize s1 + content.utf8ByteSize := by
        rw [← hs']
        simp only [getDynamicCacheSize]
        rw [hcomm]
        simp only [sumDocBytes, sumMemBytes] at hsum ⊢
        omega
      rcases hA with hle | ⟨hD0, _⟩
      · omega
      · rw [hD0] at hrowDyn
        cases hrowDyn
    · intro d hd hdcrit
      rw [← hs']
      simp only
      have hd1 : d ∈ s1.docs := hkeep d hd hdcrit
      have hdid : d.id ≠ row.id := by
        intro h
        have : d = row := row_eq_of_key_eq DocRow.id hnd1d hd1 hrow1 h
        rw [this, hrowCrit] at hdcrit
        exact Bool.false_ne_true hdcrit
      have : (if d.id = row.id then
          { d with content := content, metadata := metadata,
                   lastAccessedAt := now,
                   sizeBytes := content.utf8ByteSize }
        else d) = d := if_neg hdid
      rw [← this]
      exact List.mem_map_of_mem _ hd1

/-- Dynamic-tier budget after a `setMemory` (always non-critical), under
the same candidate-count conditions; critical documents survive. -/
theorem setMemoryFull_bound (maxBytes now : Nat) (name content : String)
    (project metadata : Option String)
    {s s' : CacheState} {evD : List DocRow} {evM : List MemRow}
    (hE : setMemoryFull maxBytes s now name content project metadata =
      (s', evD, evM))
    (hnd_d : (s.docs.map DocRow.id).Nodup)
    (hnd_m : (s.mems.map MemRow.id).Nodup)
    (hcount_d : (s.docs.filter (fun d => !d.isCritical)).length ≤ 100)
    (hcount_m : s.mems.length ≤ 100) :
    getDynamicCacheSize s' ≤ maxBytes + content.utf8ByteSize ∧
    (∀ d ∈ s.docs, d.isCritical = true → d ∈ s'.docs) := by
  rcases hEn : ensureCacheSize maxBytes s content.utf8ByteSize false with
    ⟨s1, evD1, evM1⟩
  obtain ⟨hA, hCritEq, hnd1d, hnd1m, hsub1d, hsub1m⟩ :=
    ensureCacheSize_bound maxBytes content.utf8ByteSize hEn hnd_d hnd_m
      hcount_d hcount_m
  have hkeep : ∀ d ∈ s.docs, d.isCritical = true → d ∈ s1.docs := by
    intro d hd hdcrit
    have : d ∈ s.docs.filter (fun d => d.isCritical) :=
      List.mem_filter.mpr ⟨hd, hdcrit⟩
    rw [← hCritEq] at this
    exact (List.mem_filter.mp this).1
  rw [setMemoryFull] at hE
  simp only at hE
  rw [hEn] at hE
  simp only at hE
  cases hfind : findMem s1.mems name (normProject project) with
  | none =>
    rw [hfind] at hE
    simp only [Prod.mk.injEq] at hE
    obtain ⟨hs', _, _⟩ := hE
    constructor
    · have hdyn' : getDynamicCacheSize s' =
          getDynamicCacheSize s1 + content.utf8ByteSize := by
        rw [← hs']
        simp only [getDynamicCacheSize, sumMemBytes, List.map_append,
          List.sum_append, List.map_cons, List.map_nil, List.sum_cons,
          List.sum_nil]
        omega
      rcases hA with hle | ⟨hD0, hM0⟩
      · omega
      · have : getDynamicCacheSize s1 = 0 := by
          simp [getDynamicCacheSize, hD0, hM0, sumDocBytes, sumMemBytes]
        omega
    · intro d hd hdcrit
      rw [← hs']
      exact hkeep d hd hdcrit
  | some row =>
    rw [hfind] at hE
    simp only [Prod.mk.injEq] at hE
    obtain ⟨hs', _, _⟩ := hE
    have hrow1 : row ∈ s1.mems := List.mem_of_find?_eq_some hfind
    constructor
    · have hsum := update_unique_sum MemRow.id MemRow.sizeBytes
        (fun m => { m with content := content, metadata := metadata,
                           lastAccessedAt := now,
                           sizeBytes := content.utf8ByteSize })
        hnd1m hrow1
      have hdyn' : getDynamicCacheSize s' + row.sizeBytes =
          getDynamicCacheSize s1 + content.utf8ByteSize := by
        rw [← hs']
        simp only [getDynamicCacheSize, sumDocBytes, sumMemBytes] at hsum ⊢
        omega
      rcases hA with hle | ⟨_, hM0⟩
      · omega
      · rw [hM0] at hrow1
        cases hrow1
    · intro d hd hdcrit
      rw [← hs']
      exact hkeep d hd hdcrit

/-- The row returned by the key lookup after a `setDocument` upsert: on
the update path it is the old row with `content`, `metadata`,
`lastAccessedAt`, `sizeBytes` overwritten (and `cachedAt`, `isCritical`
untouched); on the insert path it is the fresh row. -/
theorem setDocument_find (maxBytes now : Nat) (docType name content : String)
    (project metadata : Option String) (s : CacheState) :
    (match findDoc (ensureCacheSize maxBytes s content.utf8ByteSize
        (CRITICAL_DOC_TYPES.contains docType)).1.docs docType name
        (normProject project) with
     | some row =>
        findDoc (setDocument maxBytes s now docType name content project
          metadata).docs docType name (normProject project) =
          some { row with content := content, metadata := metadata,
                          lastAccessedAt := now,
                          sizeBytes := content.utf8ByteSize }
     | none =>
        findDoc (setDocument maxBytes s now docType name content project
          metadata).docs docType name (normProject project) =
          some { id := (ensureCacheSize maxBytes s content.utf8ByteSize
                   (CRITICAL_DOC_TYPES.contains docType)).1.nextDocId,
                 docType := docType, name := name,
                 project := normProject project, content := content,
                 metadata := metadata, cachedAt := now,
                 lastAccessedAt := now,
                 isCritical := CRITICAL_DOC_TYPES.contains docType,
                 sizeBytes := content.utf8ByteSize }) := by
  rcases hEn : ensureCacheSize maxBytes s content.utf8ByteSize
    (CRITICAL_DOC_TYPES.contains docType) with ⟨s1, evD1, evM1⟩
  simp only
  cases hfind : findDoc s1.docs docType name (normProject project) with
  | some row =>
    have hs' : (setDocument maxBytes s now docType name content project
        metadata).docs = s1.docs.map (fun d =>
          if d.id = row.id then
            { d with content := content, metadata := metadata,
                     lastAccessedAt := now,
                     sizeBytes := content.utf8ByteSize }
          else d) := by
      rw [setDocument, setDocumentFull]
      simp only
      rw [hEn]
      simp only
      rw [hfind]
    rw [hs', findDoc, List.find?_map]
    have hpg : ((fun d : DocRow =>
        d.docType = docType && d.name = name &&
          d.project = normProject project) ∘ (fun d =>
          if d.id = row.id then
            { d with content := content, metadata := metadata,
                     lastAccessedAt := now,
                     sizeBytes := content.utf8ByteSize }
          else d)) = (fun d : DocRow =>
        d.docType = docType && d.name = name &&
          d.project = normProject project) := by
      funext d
      by_cases h : d.id = row.id <;> simp [h]
    rw [hpg]
    rw [findDoc] at hfind
    rw [hfind]
    simp
  | none =>
    have hs' : (setDocument maxBytes s now docType name content project
        metadata).docs = s1.docs ++
          [{ id := s1.nextDocId, docType := docType, name := name,
             project := normProject project, content := content,
             metadata := metadata, cachedAt := now, lastAccessedAt := now,
             isCritical := CRITICAL_DOC_TYPES.contains docType,
             sizeBytes := content.utf8ByteSize }] := by
      rw [setDocument, setDocumentFull]
      simp only
      rw [hEn]
      simp only
      rw [hfind]
    rw [hs', findDoc, List.find?_append]
    rw [findDoc] at hfind
    rw [hfind]
    simp

/-- Reading a key that resolves to row `r` returns `r`'s stored fields and
the age measured from `r.cachedAt`. -/
theorem getDocument_of_find (s : CacheState) (now2 : Nat)
    (docType name : String) (project : Option String) {r : DocRow}
    (hfind : findDoc s.docs docType name (normProject project) = some r) :
    (getDocument s now2 docType name project).1 =
      some { data := { name := r.name, docType := some r.docType,
                       project := r.project, content := r.content,
                       metadata := r.metadata.getD emptyJsonObject }
             cachedAt := r.cachedAt, age := (now2 - r.cachedAt) / 1000 } := by
  rw [getDocument]
  simp only [hfind]

/-! ## Lemmas about the write queue -/

theorem applyOutcome_id (now : Nat) (o : Except String Unit) (r : QueueRow) :
    (applyOutcome now o r).id = r.id := by
  cases o with
  | ok _ => rfl
  | error msg =>
    simp only [applyOutcome]
    split <;> rfl

theorem updateRow_ids (rows : List QueueRow) (id : Nat) (f : QueueRow → QueueRow)
    (hf : ∀ r, (f r).id = r.id) :
    (updateRow rows id f).map QueueRow.id = rows.map QueueRow.id := by
  simp only [updateRow, List.map_map]
  refine List.map_congr_left ?_
  intro r _
  simp only [Function.comp_apply]
  by_cases h : r.id = id
  · rw [if_pos h, hf]
  · rw [if_neg h]

/-- One failed or successful attempt keeps the retry invariant: a failed
row carries exactly `maxAttempts` attempts, any other row fewer. -/
theorem applyOutcome_inv (now : Nat) (o : Except String Unit) {r : QueueRow}
    (hr : r.status = QStatus.pending) (ha : r.attempts < maxAttempts) :
    ((applyOutcome now o r).status = QStatus.failed →
      (applyOutcome now o r).attempts = maxAttempts) ∧
    ((applyOutcome now o r).status ≠ QStatus.failed →
      (applyOutcome now o r).attempts < maxAttempts) := by
  cases o with
  | ok _ =>
    constructor
    · intro h
      simp only [applyOutcome] at h
      cases h
    · intro _
      exact ha
  | error msg =>
    simp only [applyOutcome]
    split
    · rename_i hmax
      constructor
      · intro _
        simp only
        omega
      · intro h
        exact absurd rfl h
    · rename_i hmax
      constructor
      · intro h
        simp only at h
        rw [hr] at h
        cases h
      · intro _
        simp only
        omega

/-- The replay loop never touches a row's primary key. -/
theorem replayLoop_ids (exec : QueueRow → Except String Unit) (now : Nat) :
    ∀ (items rows : List QueueRow),
    (replayLoop exec now rows items).map QueueRow.id = rows.map QueueRow.id := by
  intro items
  induction items with
  | nil => intro rows; rfl
  | cons i rest ih =>
    intro rows
    simp only [replayLoop]
    rw [ih, updateRow_ids]
    exact applyOutcome_id now (exec i)

/-- The retry invariant is preserved across a whole replay pass: every
selected item addresses a pending row, each row is updated at most once
(distinct ids), and each update goes through `applyOutcome`. -/
theorem replayLoop_inv (exec : QueueRow → Except String Unit) (now : Nat) :
    ∀ (items rows : List QueueRow),
    (items.map QueueRow.id).Nodup →
    (∀ item ∈ items, ∀ r ∈ rows, r.id = item.id →
      r.status = QStatus.pending) →
    (∀ r ∈ rows, (r.status = QStatus.failed → r.attempts = maxAttempts) ∧
      (r.status ≠ QStatus.failed → r.attempts < maxAttempts)) →
    ∀ r ∈ replayLoop exec now rows items,
      (r.status = QStatus.failed → r.attempts = maxAttempts) ∧
      (r.status ≠ QStatus.failed → r.attempts < maxAttempts) := by
  intro items
  induction items with
  | nil =>
    intro rows _ _ hP r hr
    exact hP r hr
  | cons i rest ih =>
    intro rows hnd hpend hP
    simp only [replayLoop]
    rw [List.map_cons, List.nodup_cons] at hnd
    obtain ⟨hinot, hndrest⟩ := hnd
    refine ih _ hndrest ?_ ?_
    · intro item hitem r1 hr1 hid
      simp only [updateRow] at hr1
      obtain ⟨r, hr, hgr⟩ := List.mem_map.mp hr1
      by_cases h : r.id = i.id
      · rw [if_pos h] at hgr
        exfalso
        apply hinot
        have h1 : r1.id = r.id := by rw [← hgr, applyOutcome_id]
        have h2 : i.id = item.id := by rw [← h, ← h1, hid]
        rw [h2]
        exact List.mem_map_of_mem QueueRow.id hitem
      · rw [if_neg h] at hgr
        subst hgr
        exact hpend item (List.mem_cons_of_mem i hitem) r hr hid
    · intro r1 hr1
      simp only [updateRow] at hr1
      obtain ⟨r, hr, hgr⟩ := List.mem_map.mp hr1
      by_cases h : r.id = i.id
      · rw [if_pos h] at hgr
        subst hgr
        have hrpend : r.status = QStatus.pending :=
          hpend i (List.mem_cons_self i rest) r hr h
        have hratt : r.attempts < maxAttempts :=
          (hP r hr).2 (by rw [hrpend]; intro hcon; cases hcon)
        exact applyOutcome_inv now (exec i) hrpend hratt
      · rw [if_neg h] at hgr
        subst hgr
        exact hP r hr

/-- The queue-state invariant along every reachable state: the retry
invariant for each row, id freshness, and distinct ids. -/
theorem qreach_inv {s : QueueState} (h : QReach s) :
    (∀ r ∈ s.rows, (r.status = QStatus.failed → r.attempts = maxAttempts) ∧
      (r.status ≠ QStatus.failed → r.attempts < maxAttempts)) ∧
    (∀ r ∈ s.rows, r.id < s.nextId) ∧
    (s.rows.map QueueRow.id).Nodup := by
  induction h with
  | init => exact ⟨by simp [QueueState.empty], by simp [QueueState.empty],
      by simp [QueueState.empty]⟩
  | @enqueue s now operation payload _ ih =>
    obtain ⟨ihP, ihB, ihN⟩ := ih
    refine ⟨?_, ?_, ?_⟩
    · intro r hr
      simp only [queueOperation, List.mem_append, List.mem_singleton] at hr
      rcases hr with hr | rfl
      · exact ihP r hr
      · constructor
        · intro hcon
          cases hcon
        · intro _
          show (0 : Nat) < maxAttempts
          decide
    · intro r hr
      simp only [queueOperation, List.mem_append, List.mem_singleton] at hr
      simp only [queueOperation]
      rcases hr with hr | rfl
      · have := ihB r hr
        omega
      · simp only
        omega
    · simp only [queueOperation, List.map_append, List.map_cons, List.map_nil]
      rw [List.nodup_append]
      refine ⟨ihN, by simp, ?_⟩
      intro x hx
      have := ihB _ (List.mem_map.mp hx).choose_spec.1
      simp only [List.mem_singleton]
      obtain ⟨r0, hr0, hr0x⟩ := List.mem_map.mp hx
      have := ihB r0 hr0
      intro hcon
      rw [hcon] at hr0x
      omega
  | @sync s exec now _ ih =>
    obtain ⟨ihP, ihB, ihN⟩ := ih
    by_cases hsync : s.isSyncing
    · rw [syncPendingOperations, if_pos hsync]
      exact ⟨ihP, ihB, ihN⟩
    · rw [syncPendingOperations, if_neg hsync]
      simp only
      set pending := sortLe queueLe
        (s.rows.filter (fun r => r.status = QStatus.pending)) with hpending
      have hpermP : pending.Perm
          (s.rows.filter (fun r => r.status = QStatus.pending)) :=
        sortLe_perm queueLe _
      have hndP : (pending.map QueueRow.id).Nodup := by
        rw [(hpermP.map QueueRow.id).nodup_iff]
        exact ((List.filter_sublist s.rows).map QueueRow.id).nodup ihN
      have hpendCond : ∀ item ∈ pending, ∀ r ∈ s.rows, r.id = item.id →
          r.status = QStatus.pending := by
        intro item hitem r hr hid
        have hitem' := hpermP.subset hitem
        have hitemRows := List.mem_of_mem_filter hitem'
        have hitemPend : item.status = QStatus.pending := by
          have := (List.mem_filter.mp hitem').2
          simpa using this
        have : r = item := row_eq_of_key_eq QueueRow.id ihN hr hitemRows hid
        rw [this]
        exact hitemPend
      have hloopP := replayLoop_inv exec now pending s.rows hndP hpendCond ihP
      have hloopIds := replayLoop_ids exec now pending s.rows
      refine ⟨?_, ?_, ?_⟩
      · intro r hr
        exact hloopP r (List.mem_of_mem_filter hr)
      · intro r hr
        have hr1 := List.mem_of_mem_filter hr
        have : r.id ∈ (replayLoop exec now s.rows pending).map QueueRow.id :=
          List.mem_map_of_mem QueueRow.id hr1
        rw [hloopIds] at this
        obtain ⟨r0, hr0, hr0id⟩ := List.mem_map.mp this
        have := ihB r0 hr0
        omega
      · have h1 : ((replayLoop exec now s.rows pending).map
            QueueRow.id).Nodup := by
          rw [hloopIds]
          exact ihN
        exact ((List.filter_sublist _).map QueueRow.id).nodup h1
  | @retry s id _ ih =>
    obtain ⟨ihP, ihB, ihN⟩ := ih
    refine ⟨?_, ?_, ?_⟩
    · intro r1 hr1
      simp only [retryOperation, updateRow] at hr1
      obtain ⟨r, hr, hgr⟩ := List.mem_map.mp hr1
      by_cases hcase : r.id = id
      · rw [if_pos hcase] at hgr
        subst hgr
        constructor
        · intro hcon
          cases hcon
        · intro _
          show (0 : Nat) < maxAttempts
          decide
      · rw [if_neg hcase] at hgr
        subst hgr
        exact ihP r hr
    · intro r1 hr1
      simp only [retryOperation] at hr1 ⊢
      have : r1.id ∈ (updateRow s.rows id _).map QueueRow.id :=
        List.mem_map_of_mem QueueRow.id hr1
      rw [updateRow_ids s.rows id (fun r =>
        { r with status := QStatus.pending, attempts := 0, error := none,
                 lastAttemptAt := none }) (fun _ => rfl)] at this
      obtain ⟨r0, hr0, hr0id⟩ := List.mem_map.mp this
      have := ihB r0 hr0
      omega
    · simp only [retryOperation]
      rw [updateRow_ids s.rows id (fun r =>
        { r with status := QStatus.pending, attempts := 0, error := none,
                 lastAttemptAt := none }) (fun _ => rfl)]
      exact ihN

/-! ## Lemmas about the connection-state machine -/

theorem maxReachedCount_emit (s : CMState) (e : CMEvent) :
    maxReachedCount (CMState.emit s e) = maxReachedCount s +
      (if e = CMEvent.maxReconnectAttemptsReached then 1 else 0) := by
  simp only [CMState.emit, maxReachedCount, List.filter_append,
    List.length_append]
  congr 1
  by_cases h : e = CMEvent.maxReconnectAttemptsReached <;>
    simp [List.filter_cons, h]

theorem maxReachedCount_setState (s : CMState) (st : ConnState) :
    maxReachedCount (cmSetState s st) = maxReachedCount s := by
  rw [cmSetState]
  split
  · rw [maxReachedCount_emit]
    rw [if_neg (show CMEvent.stateChange s.state st ≠
      CMEvent.maxReconnectAttemptsReached from by simp)]
    rw [Nat.add_zero]
    rfl
  · rfl

theorem cmSetState_state (s : CMState) (st : ConnState) :
    (cmSetState s st).state = st := by
  rw [cmSetState]
  split <;> rfl

theorem cmSetState_attempts (s : CMState) (st : ConnState) :
    (cmSetState s st).reconnectAttempts = s.reconnectAttempts := by
  rw [cmSetState]
  split <;> rfl

theorem cmSetState_timer (s : CMState) (st : ConnState) :
    (cmSetState s st).reconnectTimer = s.reconnectTimer := by
  rw [cmSetState]
  split <;> rfl

/-- One probe failure with no reconnect timer armed and the attempt
counter strictly below the limit: the supervisor enters `reconnecting`,
bumps the counter, arms the timer, and does not emit
`maxReconnectAttemptsReached`. -/
theorem probeFailure_step (m : Nat) (s : CMState)
    (htimer : s.reconnectTimer = false) (hlt : s.reconnectAttempts < m) :
    (probeFailure m s).state = ConnState.reconnecting ∧
    (probeFailure m s).reconnectAttempts = s.reconnectAttempts + 1 ∧
    (probeFailure m s).reconnectTimer = true ∧
    maxReachedCount (probeFailure m s) = maxReachedCount s := by
  set s1 := (cmSetState s ConnState.disconnected).emit CMEvent.disconnectedEv
    with hs1
  have h1timer : s1.reconnectTimer = false := by
    rw [hs1]
    show (cmSetState s ConnState.disconnected).reconnectTimer = false
    rw [cmSetState_timer]
    exact htimer
  have h1att : s1.reconnectAttempts = s.reconnectAttempts := by
    rw [hs1]
    show (cmSetState s ConnState.disconnected).reconnectAttempts = _
    rw [cmSetState_attempts]
  have h1cnt : maxReachedCount s1 = maxReachedCount s := by
    rw [hs1]
    rw [maxReachedCount_emit, maxReachedCount_setState]
    simp
  rw [probeFailure, ← hs1, scheduleReconnect]
  rw [if_neg (by rw [h1timer]; simp)]
  rw [if_neg (by rw [h1att]; omega)]
  refine ⟨?_, ?_, ?_, ?_⟩
  · show (cmSetState s1 ConnState.reconnecting).state = _
    rw [cmSetState_state]
  · show (cmSetState s1 ConnState.reconnecting).reconnectAttempts + 1 = _
    rw [cmSetState_attempts, h1att]
  · rfl
  · rw [maxReachedCount_emit]
    rw [if_neg (show CMEvent.reconnectingEv _ ≠
      CMEvent.maxReconnectAttemptsReached from by simp)]
    rw [Nat.add_zero]
    show maxReachedCount (cmSetState s1 ConnState.reconnecting) = _
    rw [maxReachedCount_setState, h1cnt]

/-- One probe failure with no reconnect timer armed and the attempt
counter at the limit: the supervisor goes offline and emits
`maxReconnectAttemptsReached` (once more). -/
theorem probeFailure_offline (m : Nat) (s : CMState)
    (htimer : s.reconnectTimer = false) (hge : m ≤ s.reconnectAttempts) :
    (probeFailure m s).state = ConnState.offline ∧
    (probeFailure m s).reconnectAttempts = s.reconnectAttempts ∧
    (probeFailure m s).reconnectTimer = false ∧
    maxReachedCount (probeFailure m s) = maxReachedCount s + 1 := by
  set s1 := (cmSetState s ConnState.disconnected).emit CMEvent.disconnectedEv
    with hs1
  have h1timer : s1.reconnectTimer = false := by
    rw [hs1]
    show (cmSetState s ConnState.disconnected).reconnectTimer = false
    rw [cmSetState_timer]
    exact htimer
  have h1att : s1.reconnectAttempts = s.reconnectAttempts := by
    rw [hs1]
    show (cmSetState s ConnState.disconnected).reconnectAttempts = _
    rw [cmSetState_attempts]
  have h1cnt : maxReachedCount s1 = maxReachedCount s := by
    rw [hs1]
    rw [maxReachedCount_emit, maxReachedCount_setState]
    simp
  rw [probeFailure, ← hs1, scheduleReconnect]
  rw [if_neg (by rw [h1timer]; simp)]
  rw [if_pos (by rw [h1att]; omega)]
  refine ⟨?_, ?_, ?_, ?_⟩
  · show (cmSetState s1 ConnState.offline).state = _
    rw [cmSetState_state]
  · show (cmSetState s1 ConnState.offline).reconnectAttempts = _
    rw [cmSetState_attempts, h1att]
  · show (cmSetState s1 ConnState.offline).reconnectTimer = _
    rw [cmSetState_timer, h1timer]
  · rw [maxReachedCount_emit]
    rw [if_pos rfl]
    rw [maxReachedCount_setState, h1cnt]

/-- While the failure count stays within the limit, each consecutive probe
failure leaves the supervisor `reconnecting` with the attempt counter
equal to the number of failures, and `maxReconnectAttemptsReached` has
never been emitted. -/
theorem failuresAfter_spec (m : Nat) : ∀ n, n ≤ m →
    ((failuresAfter m n).state =
      if n = 0 then ConnState.connected else ConnState.reconnecting) ∧
    (failuresAfter m n).reconnectAttempts = n ∧
    ((failuresAfter m n).reconnectTimer = decide (n ≠ 0)) ∧
    maxReachedCount (failuresAfter m n) = 0 := by
  intro n
  induction n with
  | zero =>
    intro _
    exact ⟨rfl, rfl, rfl, rfl⟩
  | succ n ih =>
    intro hle
    obtain ⟨ihs, iha, iht, ihc⟩ := ih (Nat.le_of_succ_le hle)
    set t := reconnectTimerFires (failuresAfter m n) with ht
    have htTimer : t.reconnectTimer = false := rfl
    have htAtt : t.reconnectAttempts = n := by
      rw [ht]
      show (failuresAfter m n).reconnectAttempts = n
      exact iha
    have htCnt : maxReachedCount t = 0 := by
      rw [ht]
      show maxReachedCount (failuresAfter m n) = 0
      exact ihc
    have hstep := probeFailure_step m t htTimer (by omega)
    have hunfold : failuresAfter m (n + 1) = probeFailure m t := rfl
    rw [hunfold]
    refine ⟨?_, ?_, ?_, ?_⟩
    · rw [hstep.1, if_neg (Nat.succ_ne_zero n)]
    · rw [hstep.2.1, htAtt]
    · rw [hstep.2.2.1]
      simp
    · rw [hstep.2.2.2, htCnt]

/-- The run of consecutive probe failures: after `maxReconnectAttempts + 1`
failures the supervisor is Offline with `maxReconnectAttemptsReached`
emitted exactly once, and one more failing periodic probe in the same run
emits it a second time. -/
theorem failuresAfter_offline (m : Nat) :
    (failuresAfter m (m + 1)).state = ConnState.offline ∧
    maxReachedCount (failuresAfter m (m + 1)) = 1 ∧
    maxReachedCount (probeFailure m (failuresAfter m (m + 1))) = 2 := by
  obtain ⟨_, ha, _, hc⟩ := failuresAfter_spec m m (Nat.le_refl m)
  set t := reconnectTimerFires (failuresAfter m m) with ht
  have htTimer : t.reconnectTimer = false := rfl
  have htAtt : t.reconnectAttempts = m := by
    rw [ht]
    show (failuresAfter m m).reconnectAttempts = m
    exact ha
  have htCnt : maxReachedCount t = 0 := by
    rw [ht]
    show maxReachedCount (failuresAfter m m) = 0
    exact hc
  have hunfold : failuresAfter m (m + 1) = probeFailure m t := rfl
  have hoff := probeFailure_offline m t htTimer (by omega)
  have hstate : (failuresAfter m (m + 1)).state = ConnState.offline := by
    rw [hunfold]
    exact hoff.1
  have hcount : maxReachedCount (failuresAfter m (m + 1)) = 1 := by
    rw [hunfold, hoff.2.2.2, htCnt]
  refine ⟨hstate, hcount, ?_⟩
  have hoff2 := probeFailure_offline m (failuresAfter m (m + 1))
    (by rw [hunfold]; exact hoff.2.2.1)
    (by rw [hunfold, hoff.2.1, htAtt])
  rw [hoff2.2.2.2, hcount]

/-! ## Claim theorems -/

/-- C1: the claim says `delete_document` / `delete_memory` are handled on
the dispatcher's write path (invalidate the cache, enqueue when not
connected, answer `success/queued`).  The code has no switch case for
them: evaluating the dispatcher on `delete_document` while the supervisor
is `reconnecting` and the target row is cached shows the call is routed
as a pass-through tool — it returns the OFFLINE error envelope, leaves
the cache row in place, enqueues nothing, and never reaches the cache
engine or the write queue (`WriteQueueManager.executeOperation`'s
`delete_document` / `delete_memory` replay cases are unreachable). -/
theorem claim_C1_delete_routed_passthrough :
    dispatch 100 ConnState.reconnecting scenC1cache QueueState.empty 50
      unreachableUpstream "delete_document" deleteDocArgs =
      { envelope := offlineEnvelope ConnState.reconnecting "delete_document",
        cache := scenC1cache, queue := QueueState.empty, calls := [] } ∧
    (offlineEnvelope ConnState.reconnecting
      "delete_document").error.map EnvError.code = some "OFFLINE" ∧
    getPendingCount QueueState.empty = 0 ∧
    (findDoc scenC1cache.docs "frd" "x" "").isSome = true := by
  decide

/-- C2: the claim asserts one logical LRU ordering across documents and
memories.  Counterexample (budget 10 bytes): after writing memory "m"
(4 bytes) at t = 1000 and document "d" (4 bytes) at t = 2000, inserting
the non-critical document "x" (4 bytes) at t = 3000 evicts the document
with `lastAccessedAt = 2000` while the strictly older memory
(`lastAccessedAt = 1000`) survives, because `evictLRU` scans the
documents table before the memories table. -/
theorem claim_C2_counterexample :
    scenC2run.2.1.map DocRow.lastAccessedAt = [2000] ∧
    scenC2run.2.2 = [] ∧
    scenC2run.1.mems.map MemRow.lastAccessedAt = [1000] ∧
    (1000 : Nat) < 2000 := by
  decide

/-- C2 (amended): eviction during an insert is LRU-ordered per table:
for every non-critical document still present after the insert, its
`lastAccessedAt` is at least that of every evicted document, and likewise
among memories — but not across the two tables, since documents are
always scanned first.  Stated for both `setDocument` and `setMemory`,
for databases with distinct primary keys and a monotone clock. -/
theorem claim_C2_amended_per_table_lru :
    (∀ (maxBytes now : Nat) (docType name content : String)
       (project metadata : Option String) (s s' : CacheState)
       (evD : List DocRow) (evM : List MemRow),
      setDocumentFull maxBytes s now docType name content project metadata =
        (s', evD, evM) →
      (s.docs.map DocRow.id).Nodup → (s.mems.map MemRow.id).Nodup →
      (∀ d ∈ s.docs, d.lastAccessedAt ≤ now) →
      (∀ m ∈ s.mems, m.lastAccessedAt ≤ now) →
      (∀ e ∈ evD, ∀ x ∈ s'.docs, x.isCritical = false →
        e.lastAccessedAt ≤ x.lastAccessedAt) ∧
      (∀ e ∈ evM, ∀ x ∈ s'.mems, e.lastAccessedAt ≤ x.lastAccessedAt)) ∧
    (∀ (maxBytes now : Nat) (name content : String)
       (project metadata : Option String) (s s' : CacheState)
       (evD : List DocRow) (evM : List MemRow),
      setMemoryFull maxBytes s now name content project metadata =
        (s', evD, evM) →
      (s.docs.map DocRow.id).Nodup → (s.mems.map MemRow.id).Nodup →
      (∀ d ∈ s.docs, d.lastAccessedAt ≤ now) →
      (∀ m ∈ s.mems, m.lastAccessedAt ≤ now) →
      (∀ e ∈ evD, ∀ x ∈ s'.docs, x.isCritical = false →
        e.lastAccessedAt ≤ x.lastAccessedAt) ∧
      (∀ e ∈ evM, ∀ x ∈ s'.mems, e.lastAccessedAt ≤ x.lastAccessedAt)) :=
  ⟨fun _ _ _ _ _ _ _ _ _ _ _ hE h1 h2 h3 h4 =>
      setDocumentFull_order _ _ _ _ _ _ _ hE h1 h2 h3 h4,
   fun _ _ _ _ _ _ _ _ _ _ hE h1 h2 h3 h4 =>
      setMemoryFull_order _ _ _ _ _ _ hE h1 h2 h3 h4⟩

/-- Witness for the amended C2 at the eviction scenario: the insert of
"x" evicts document "d", and both per-table orderings hold there. -/
theorem claim_C2_amended_witness :
    (∀ e ∈ scenC2run.2.1, ∀ x ∈ scenC2run.1.docs, x.isCritical = false →
      e.lastAccessedAt ≤ x.lastAccessedAt) ∧
    (∀ e ∈ scenC2run.2.2, ∀ x ∈ scenC2run.1.mems,
      e.lastAccessedAt ≤ x.lastAccessedAt) :=
  claim_C2_amended_per_table_lru.1 10 3000 "frd" "x" "cccc" none none
    scenC2pre scenC2run.1 scenC2run.2.1 scenC2run.2.2 rfl
    (by decide) (by decide) (by decide) (by decide)

set_option maxRecDepth 100000 in
/-- C3: the claim bounds the dynamic tier by `maxDynamicBytes + |R|`
after every non-critical insert.  Counterexample with
`maxDynamicCacheSize = 10`: `c3pre` is reached from the empty cache (see
its doc comment for the insert sequence); inserting the 6-byte
non-critical document "b3" then needs 8 bytes evicted, but the eviction
scan is capped at `LIMIT 100` rows and its 100 candidates are all
zero-byte rows, so it frees nothing — the dynamic tier ends at 18 bytes,
exceeding 10 + 6. -/
theorem claim_C3_counterexample :
    CRITICAL_DOC_TYPES.contains "frd" = false ∧
    String.utf8ByteSize "aaaaaa" = 6 ∧
    getDynamicCacheSize
      (setDocument 10 c3pre 302 "frd" "b3" "aaaaaa" none none) = 18 ∧
    ¬(getDynamicCacheSize
      (setDocument 10 c3pre 302 "frd" "b3" "aaaaaa" none none) ≤ 10 + 6) := by
  decide

/-- C3 (amended): the single-item overshoot bound
`dynamicBytes ≤ maxDynamicBytes + |R|` holds after every non-critical
insert provided each eviction scan can see the whole table — at most 100
non-critical documents and at most 100 memories (the `LIMIT 100` batch
cap of `evictLRU`); critical rows are never counted in the dynamic total
and never deleted by the insert.  Stated for both `setDocument` (with
`isCritical` consistent with `docType` on stored rows, and a non-critical
`docType`) and `setMemory`. -/
theorem claim_C3_amended_bounded_scan :
    (∀ (maxBytes now : Nat) (docType name content : String)
       (project metadata : Option String) (s s' : CacheState)
       (evD : List DocRow) (evM : List MemRow),
      setDocumentFull maxBytes s now docType name content project metadata =
        (s', evD, evM) →
      (s.docs.map DocRow.id).Nodup → (s.mems.map MemRow.id).Nodup →
      (s.docs.filter (fun d => !d.isCritical)).length ≤ 100 →
      s.mems.length ≤ 100 →
      (∀ d ∈ s.docs, d.isCritical = CRITICAL_DOC_TYPES.contains d.docType) →
      CRITICAL_DOC_TYPES.contains docType = false →
      getDynamicCacheSize s' ≤ maxBytes + content.utf8ByteSize ∧
      (∀ d ∈ s.docs, d.isCritical = true → d ∈ s'.docs)) ∧
    (∀ (maxBytes now : Nat) (name content : String)
       (project metadata : Option String) (s s' : CacheState)
       (evD : List DocRow) (evM : List MemRow),
      setMemoryFull maxBytes s now name content project metadata =
        (s', evD, evM) →
      (s.docs.map DocRow.id).Nodup → (s.mems.map MemRow.id).Nodup →
      (s.docs.filter (fun d => !d.isCritical)).length ≤ 100 →
      s.mems.length ≤ 100 →
      getDynamicCacheSize s' ≤ maxBytes + content.utf8ByteSize ∧
      (∀ d ∈ s.docs, d.isCritical = true → d ∈ s'.docs)) :=
  ⟨fun _ _ _ _ _ _ _ _ _ _ _ hE h1 h2 h3 h4 h5 h6 =>
      setDocumentFull_bound _ _ _ _ _ _ _ hE h1 h2 h3 h4 h5 h6,
   fun _ _ _ _ _ _ _ _ _ _ hE h1 h2 h3 h4 =>
      setMemoryFull_bound _ _ _ _ _ _ hE h1 h2 h3 h4⟩

/-- Witness for the amended C3 at the eviction scenario: after inserting
"x" the dynamic tier holds at most 10 + 4 bytes and every critical row
is still present. -/
theorem claim_C3_amended_witness :
    getDynamicCacheSize scenC2run.1 ≤ 10 + String.utf8ByteSize "cccc" ∧
    (∀ d ∈ scenC2pre.docs, d.isCritical = true → d ∈ scenC2run.1.docs) :=
  claim_C3_amended_bounded_scan.1 10 3000 "frd" "x" "cccc" none none
    scenC2pre scenC2run.1 scenC2run.2.1 scenC2run.2.2 rfl
    (by decide) (by decide) (by decide) (by decide) (by decide) (by decide)

/-- C4: the claim says an update overwrites `cachedAt` so an immediate
`getDocument` reports age 0.  Counterexample: key (frd, "n", "") written
at t = 0 ms and updated at t = 5000 ms; reading it at t = 5000 ms reports
age 5 seconds, not 0, because the `onConflictDoUpdate` set of
`setDocument` omits `cachedAt`. -/
theorem claim_C4_counterexample :
    (getDocument scenC4pre 5000 "frd" "n" none).1.map CachedItem.age =
      some 5 ∧
    ¬((getDocument scenC4pre 5000 "frd" "n" none).1.map CachedItem.age =
      some 0) := by
  decide

/-- C4 (amended): when the composite key already exists at upsert time,
`setDocument` overwrites `content`, `metadata`, `lastAccessedAt` and
`sizeBytes` but leaves `cachedAt` (and `isCritical`) at their original
values, so a following `getDocument` reports
`age = floor((now - original cachedAt) / 1000)` — 0 only if the update
happened within a second of the first caching. -/
theorem claim_C4_amended_update_keeps_cachedAt
    (maxBytes now now2 : Nat) (docType name content : String)
    (project metadata : Option String) (s : CacheState) {row : DocRow}
    (hfind : findDoc (ensureCacheSize maxBytes s content.utf8ByteSize
      (CRITICAL_DOC_TYPES.contains docType)).1.docs docType name
      (normProject project) = some row) :
    findDoc (setDocument maxBytes s now docType name content project
        metadata).docs docType name (normProject project) =
      some { row with content := content, metadata := metadata,
                      lastAccessedAt := now,
                      sizeBytes := content.utf8ByteSize } ∧
    (getDocument (setDocument maxBytes s now docType name content project
        metadata) now2 docType name project).1 =
      some { data := { name := row.name, docType := some row.docType,
                       project := row.project, content := content,
                       metadata := metadata.getD emptyJsonObject }
             cachedAt := row.cachedAt,
             age := (now2 - row.cachedAt) / 1000 } := by
  have h := setDocument_find maxBytes now docType name content project
    metadata s
  rw [hfind] at h
  exact ⟨h, getDocument_of_find _ now2 docType name project h⟩

/-- Witness for the amended C4: write (frd, "n") at t = 0, update it at
t = 5000 ms, read at t = 5000 ms: the key lookup returns the updated row
with the original `cachedAt = 0` and the read reports age 5 seconds. -/
theorem claim_C4_amended_witness :
    findDoc (setDocument 100 (setDocument 100 CacheState.empty 0 "frd" "n"
        "v1" none none) 5000 "frd" "n" "v2" none none).docs "frd" "n"
      (normProject none) =
      some { id := 1, docType := "frd", name := "n", project := "",
             content := "v2", metadata := none, cachedAt := 0,
             lastAccessedAt := 5000, isCritical := false, sizeBytes := 2 } ∧
    (getDocument (setDocument 100 (setDocument 100 CacheState.empty 0 "frd"
        "n" "v1" none none) 5000 "frd" "n" "v2" none none) 5000 "frd" "n"
        none).1 =
      some { data := { name := "n", docType := some "frd", project := "",
                       content := "v2",
                       metadata := Option.getD none emptyJsonObject }
             cachedAt := 0, age := (5000 - 0) / 1000 } :=
  @claim_C4_amended_update_keeps_cachedAt 100 5000 5000 "frd" "n" "v2" none
    none (setDocument 100 CacheState.empty 0 "frd" "n" "v1" none none)
    ⟨1, "frd", "n", "", "v1", none, 0, 0, false, 2⟩ (by decide)

/-- C5: every queue row reachable through enqueue, replay and retry
satisfies `attempts ≤ maxAttempts` (3), and a row whose attempts have
reached `maxAttempts` is `failed`, never `pending`; on a replay failure
the row stays pending with `attempts`, `lastAttemptAt` and `lastError`
updated while `attempts + 1 < maxAttempts`, and transitions to `failed`
with the same fields otherwise. -/
theorem claim_C5_bounded_retry :
    (∀ s : QueueState, QReach s → ∀ r ∈ s.rows,
      r.attempts ≤ maxAttempts ∧
      (r.attempts = maxAttempts → r.status = QStatus.failed)) ∧
    (∀ (now : Nat) (msg : String) (r : QueueRow),
      (r.attempts + 1 < maxAttempts →
        applyOutcome now (.error msg) r =
          { r with attempts := r.attempts + 1, lastAttemptAt := some now,
                   error := some msg }) ∧
      (maxAttempts ≤ r.attempts + 1 →
        applyOutcome now (.error msg) r =
          { r with status := QStatus.failed, attempts := r.attempts + 1,
                   lastAttemptAt := some now, error := some msg })) := by
  constructor
  · intro s hs r hr
    obtain ⟨hP, _, _⟩ := qreach_inv hs
    obtain ⟨hf, hnf⟩ := hP r hr
    by_cases hst : r.status = QStatus.failed
    · exact ⟨le_of_eq (hf hst), fun _ => hst⟩
    · have := hnf hst
      exact ⟨Nat.le_of_lt this, fun heq => absurd heq (by omega)⟩
  · intro now msg r
    constructor
    · intro hlt
      simp only [applyOutcome]
      rw [if_neg (by omega)]
    · intro hge
      simp only [applyOutcome]
      rw [if_pos hge]

/-- Witness for C5 at the queue that enqueued one operation and replayed
it through three failing passes: its row is `failed` with exactly three
attempts. -/
theorem claim_C5_witness :
    ∀ r ∈ scenC5.rows, r.attempts ≤ maxAttempts ∧
      (r.attempts = maxAttempts → r.status = QStatus.failed) :=
  claim_C5_bounded_retry.1 scenC5
    (QReach.sync failExec 4 (QReach.sync failExec 3 (QReach.sync failExec 2
      (QReach.enqueue 1 "create_document"
        (QueuePayload.doc "frd" "x" "body" none none) QReach.init))))

/-- C6: one replay pass selects the pending rows ordered by `createdAt`
ascending and attempts every one of them sequentially — the trace of
upstream invocations is exactly the pending rows in submission order,
whatever the failure pattern of the upstream executor, so an earlier
enqueue is replayed before a later one and a failure does not prevent the
following rows from being attempted. -/
theorem claim_C6_replay_order (s : QueueState)
    (exec : QueueRow → Except String Unit) (now : Nat)
    (hsync : s.isSyncing = false)
    (hmono : List.Pairwise (fun a b => a.createdAt ≤ b.createdAt) s.rows) :
    (syncPendingOperations s exec now).trace =
      s.rows.filter (fun r => r.status = QStatus.pending) := by
  rw [syncPendingOperations, if_neg (by rw [hsync]; simp)]
  simp only
  refine sortLe_eq_self ?_
  refine List.Pairwise.imp ?_
    (List.Pairwise.sublist (List.filter_sublist s.rows) hmono)
  intro a b h
  simp only [queueLe, decide_eq_true_eq]
  exact h

/-- Witness for C6: two operations enqueued at t = 1 and t = 2 are both
attempted, in that order, by a pass whose upstream always fails. -/
theorem claim_C6_witness :
    (syncPendingOperations scenC6 failExec 10).trace =
      scenC6.rows.filter (fun r => r.status = QStatus.pending) :=
  claim_C6_replay_order scenC6 failExec 10 (by decide) (by decide)

/-- C7: the claim says the supervisor is Offline after
`maxReconnectAttempts` consecutive probe failures.  Counterexample at the
default limit 10: after 10 consecutive failures the supervisor is still
`reconnecting` (the attempt counter has only then reached 10), not
Offline. -/
theorem claim_C7_counterexample :
    (failuresAfter 10 10).state = ConnState.reconnecting ∧
    (failuresAfter 10 10).state ≠ ConnState.offline := by
  decide

/-- C7 (amended): after `maxReconnectAttempts + 1` consecutive probe
failures the supervisor is Offline and `maxReconnectAttemptsReached` has
been emitted exactly once; the event is however re-emitted by the next
failing periodic probe of the same run, so it is not exactly-once while
probe activity continues. -/
theorem claim_C7_amended_offline_after_max_plus_one (m : Nat) :
    (failuresAfter m (m + 1)).state = ConnState.offline ∧
    maxReachedCount (failuresAfter m (m + 1)) = 1 ∧
    maxReachedCount (probeFailure m (failuresAfter m (m + 1))) = 2 :=
  failuresAfter_offline m

/-- C8: a call to a catalog tool outside the cacheable-read set and
outside the write set, while the supervisor is not connected, yields the
OFFLINE error envelope whose `_metadata.status` is the supervisor's
current state; the upstream client is never invoked and cache and queue
are untouched. -/
theorem claim_C8_passthrough_offline (maxBytes : Nat) (conn : ConnState)
    (cache : CacheState) (queue : QueueState) (now : Nat) (up : Upstream)
    (name : String) (args : ToolArgs)
    (hcat : name ∈ qwickbrainToolNames)
    (hread : ¬ name ∈ CACHEABLE_TOOLS)
    (hwrite : ¬ name ∈ specWriteTools)
    (hconn : conn ≠ ConnState.connected) :
    dispatch maxBytes conn cache queue now up name args =
      { envelope := offlineEnvelope conn name, cache := cache,
        queue := queue, calls := [] } ∧
    (offlineEnvelope conn name).error.map EnvError.code = some "OFFLINE" ∧
    (offlineEnvelope conn name).metadata.status = conn := by
  simp only [CACHEABLE_TOOLS, specWriteTools, List.mem_cons,
    List.not_mem_nil, or_false, not_or] at hread hwrite
  obtain ⟨h1, h2, h3⟩ := hread
  obtain ⟨h4, h5, h6, h7, h8, h9⟩ := hwrite
  refine ⟨?_, rfl, rfl⟩
  rw [dispatch]
  rw [if_neg h1, if_neg h2, if_neg h3]
  rw [if_neg (by simp [h4, h5])]
  rw [if_neg (by simp [h6, h7])]
  rw [if_pos (by simp [requiresConnection, CACHEABLE_TOOLS, h1, h2, h3,
    hconn])]

/-- Witness for C8: `search_codebase` while `reconnecting` on empty cache
and queue. -/
theorem claim_C8_witness :
    dispatch 100 ConnState.reconnecting CacheState.empty QueueState.empty 0
      unreachableUpstream "search_codebase" deleteDocArgs =
      { envelope := offlineEnvelope ConnState.reconnecting "search_codebase",
        cache := CacheState.empty, queue := QueueState.empty, calls := [] } ∧
    (offlineEnvelope ConnState.reconnecting
      "search_codebase").error.map EnvError.code = some "OFFLINE" ∧
    (offlineEnvelope ConnState.reconnecting
      "search_codebase").metadata.status = ConnState.reconnecting :=
  claim_C8_passthrough_offline 100 ConnState.reconnecting CacheState.empty
    QueueState.empty 0 unreachableUpstream "search_codebase" deleteDocArgs
    (by decide) (by decide) (by decide) (by decide)

/-- C9: `setDocument` immediately followed by `getDocument` of the same
key, with no intervening operation, returns the stored content unchanged,
the metadata that was passed in, and a non-negative age. -/
theorem claim_C9_roundtrip (maxBytes now now2 : Nat)
    (docType name content : String) (project : Option String) (m : String)
    (s : CacheState) :
    ∃ it : CachedItem,
      (getDocument (setDocument maxBytes s now docType name content project
        (some m)) now2 docType name project).1 = some it ∧
      it.data.content = content ∧ it.data.metadata = m ∧ 0 ≤ it.age := by
  have h := setDocument_find maxBytes now docType name content project
    (some m) s
  cases hfind : findDoc (ensureCacheSize maxBytes s content.utf8ByteSize
      (CRITICAL_DOC_TYPES.contains docType)).1.docs docType name
      (normProject project) with
  | some row =>
    rw [hfind] at h
    exact ⟨_, getDocument_of_find _ now2 docType name project h, rfl, rfl,
      Nat.zero_le _⟩
  | none =>
    rw [hfind] at h
    exact ⟨_, getDocument_of_find _ now2 docType name project h, rfl, rfl,
      Nat.zero_le _⟩

/-- C10: every cache operation normalizes an omitted project to the empty
string before the key lookup, so passing `none` and passing `""` address
the same row and produce identical results and states. -/
theorem claim_C10_project_normalization :
    ∀ (maxBytes : Nat) (s : CacheState) (now : Nat)
      (docType name content : String) (metadata : Option String),
      getDocument s now docType name none =
        getDocument s now docType name (some "") ∧
      setDocument maxBytes s now docType name content none metadata =
        setDocument maxBytes s now docType name content (some "") metadata ∧
      getMemory s now name none = getMemory s now name (some "") ∧
      setMemory maxBytes s now name content none metadata =
        setMemory maxBytes s now name content (some "") metadata ∧
      invalidateDocument s docType name none =
        invalidateDocument s docType name (some "") ∧
      invalidateMemory s name none = invalidateMemory s name (some "") :=
  fun _ _ _ _ _ _ _ => ⟨rfl, rfl, rfl, rfl, rfl, rfl⟩
